import Mathlib

/-!
# Token tracker: store, query model and ingestion step

A shallow embedding of `store/store.go`, `store/postgresql/postgresql.go` and the
per-event step of `tracker/tracker.go`.

Modelling conventions.

* `web3.Address` and `web3.Hash` are represented by their `String()` rendering (the
  rendering is injective, and the store only ever uses the rendering).
* `*big.Int` is `Int`; `value.String()` is the decimal rendering `toString`.
* A Go `error` is `Option String` (`none` is `nil`); a Go `(T, error)` is `Except String T`.
* The PostgreSQL database is a pair of tables kept in stored (insertion) order. A query
  without `ORDER BY` returns rows in stored order.
* Every call into the database driver may fail for reasons outside the program
  (connectivity loss, ...). The environment is a fault schedule `List Bool` consumed one
  entry per driver call: `true` makes that call fail. An exhausted schedule means no
  further failures.
* A transaction works on a private copy of the database; only `Commit` publishes it.
* `abi.ParseLog` belongs to an external library and is a parameter of the model.
-/

namespace TokenTracker

/-! ## Data model -/

/-- The `String()` rendering of a `web3.Address`. -/
abbrev Web3Address := String

/-- The `String()` rendering of a `web3.Hash`. -/
abbrev Web3Hash := String

/-- The fields of `web3.Log` the program reads. -/
structure Log where
  Address : Web3Address
  BlockHash : Web3Hash
  TransactionHash : Web3Hash
  Topics : List Web3Hash
  Data : List Nat
  deriving DecidableEq, Repr

/-- A dynamically typed decoded value (`interface{}`), as produced by `abi.ParseLog`. -/
inductive AbiValue where
  | address (a : Web3Address)
  | bigInt (v : Int)
  | other (tag : String)
  deriving DecidableEq, Repr

/-- The `map[string]interface{}` returned by `abi.ParseLog`. -/
abbrev Vals := List (String × AbiValue)

/-- The type of `abi.ParseLog(transferEvent.Inputs, ·)`. -/
abbrev LogDecoder := Log → Except String Vals

/-- Transfer is the model for a token transfer (`store.Transfer`). -/
structure Transfer where
  Addr : String
  From : String
  To : String
  Value : String
  deriving DecidableEq, Repr

/-- QueryPagination represents a database pagination query. Go `int` fields are `Int`. -/
structure QueryPagination where
  Limit : Int
  Offset : Int
  deriving DecidableEq, Repr

/-- TransfersFilter is the filter for a token transfer; the embedded `QueryPagination`
is the field `page`. -/
structure TransfersFilter where
  page : QueryPagination
  From : List Web3Address
  To : List Web3Address
  Tokens : List Web3Address
  deriving DecidableEq, Repr

/-- A row of the table `transfers(token_id, block_hash, txn_hash, from_addr, to_addr, value)`. -/
structure TransferRow where
  token_id : String
  block_hash : String
  txn_hash : String
  from_addr : String
  to_addr : String
  value : String
  deriving DecidableEq, Repr

/-- Modelled from the spec: the persisted schema `db/schema/schema.sql` is not among the
sources; the spec gives two tables, `tokens(id unique)` and
`transfers(token_id, block_hash, txn_hash, from_addr, to_addr, value)`, the latter
without a uniqueness constraint. Rows are kept in stored order. -/
structure Database where
  tokens : List String
  transfers : List TransferRow
  deriving DecidableEq, Repr

/-- The store: the committed database behind `sqlx.DB` together with the fault schedule
of the environment. -/
structure Store where
  db : Database
  faults : List Bool
  deriving DecidableEq, Repr

/-- An open transaction (`sqlx.Tx`): a private working copy of the database and the
remaining fault schedule. -/
structure Tx where
  db : Database
  faults : List Bool
  deriving DecidableEq, Repr

/-! ## The database driver -/

/-- The error a faulted driver call returns. -/
def driverError : String := "driver: bad connection"

/-- Take the next entry of the fault schedule. -/
def popFault : List Bool → Bool × List Bool
  | [] => (false, [])
  | b :: fs => (b, fs)

/-- The call `db.Beginx()`: opens a transaction on the committed state. -/
def Beginx (s : Store) : Except String Tx × List Bool :=
  match popFault s.faults with
  | (true, fs) => (.error driverError, fs)
  | (false, fs) => (.ok { db := s.db, faults := fs }, fs)

/-- The call `tx.Commit()`: publishes the working copy. -/
def Commit (s : Store) (tx : Tx) : Option String × Store :=
  match popFault tx.faults with
  | (true, fs) => (some driverError, { db := s.db, faults := fs })
  | (false, fs) => (none, { db := tx.db, faults := fs })

/-- The statement `SELECT count(*) FROM tokens WHERE id=$1` inside a transaction. -/
def txCountTokens (tx : Tx) (id : String) : Except String Nat × Tx :=
  match popFault tx.faults with
  | (true, fs) => (.error driverError, { tx with faults := fs })
  | (false, fs) => (.ok (tx.db.tokens.count id), { tx with faults := fs })

/-- The statement `INSERT INTO tokens (id) VALUES ($1)`; `id` is unique. -/
def txInsertToken (tx : Tx) (id : String) : Option String × Tx :=
  match popFault tx.faults with
  | (true, fs) => (some driverError, { tx with faults := fs })
  | (false, fs) =>
    if id ∈ tx.db.tokens then
      (some "duplicate key value violates unique constraint", { tx with faults := fs })
    else
      (none, { db := { tx.db with tokens := tx.db.tokens ++ [id] }, faults := fs })

/-- The statement `INSERT INTO transfers (...) VALUES ($1, $2, $3, $4, $5, $6)`. -/
def txInsertTransfer (tx : Tx) (row : TransferRow) : Option String × Tx :=
  match popFault tx.faults with
  | (true, fs) => (some driverError, { tx with faults := fs })
  | (false, fs) =>
    (none, { db := { tx.db with transfers := tx.db.transfers ++ [row] }, faults := fs })

/-- The statement `DELETE FROM transfers WHERE block_hash=$1`. -/
def txDeleteTransfers (tx : Tx) (blockHash : String) : Option String × Tx :=
  match popFault tx.faults with
  | (true, fs) => (some driverError, { tx with faults := fs })
  | (false, fs) =>
    (none, { db := { tx.db with
                     transfers := tx.db.transfers.filter (fun r => r.block_hash ≠ blockHash) },
             faults := fs })

/-! ## Pagination and queries (`store/store.go`) -/

/-- The method `(q *QueryPagination) String()`. -/
def QueryPagination.String (q : QueryPagination) : String :=
  if q.Limit = 0 then
    ""
  else
    " LIMIT " ++ toString q.Limit ++ " OFFSET " ++ toString q.Offset

/-- The pagination clause that `QueryPagination.String` denotes: `none` for the empty
string, `some (l, k)` for ` LIMIT l OFFSET k`. -/
def QueryPagination.clause (q : QueryPagination) : Option (Int × Int) :=
  if q.Limit = 0 then none else some (q.Limit, q.Offset)

/-- The text of a pagination clause. -/
def renderPagination : Option (Int × Int) → String
  | none => ""
  | some (l, k) => " LIMIT " ++ toString l ++ " OFFSET " ++ toString k

/-- PostgreSQL's evaluation of a pagination clause on the rows a query selects: no clause
keeps every row; a negative limit or offset is an error; otherwise the first `k` rows are
skipped and at most `l` of the rest are returned. -/
def applyPagination {α : Type} (c : Option (Int × Int)) (rows : List α) :
    Except String (List α) :=
  match c with
  | none => .ok rows
  | some (l, k) =>
    if l < 0 then .error "LIMIT must not be negative"
    else if k < 0 then .error "OFFSET must not be negative"
    else .ok ((rows.drop k.toNat).take l.toNat)

/-- The function `sliceAddressToString`. -/
def sliceAddressToString (w : List Web3Address) : List String :=
  w.foldl (fun resp i => resp ++ [i]) []

/-- One `column IN ('v1', 'v2', ...)` condition of a `WHERE` clause. -/
structure InCond where
  column : String
  values : List String
  deriving DecidableEq, Repr

/-- The text of an `IN` condition, as `GetTokenTransfers` writes it. -/
def InCond.render (c : InCond) : String :=
  c.column ++ " IN ('" ++ "', '".intercalate c.values ++ "')"

/-- The value of a column of a transfer row. -/
def TransferRow.column (r : TransferRow) (name : String) : Option String :=
  if name = "token_id" then some r.token_id
  else if name = "block_hash" then some r.block_hash
  else if name = "txn_hash" then some r.txn_hash
  else if name = "from_addr" then some r.from_addr
  else if name = "to_addr" then some r.to_addr
  else if name = "value" then some r.value
  else none

/-- PostgreSQL's evaluation of one `IN` condition on a row. -/
def InCond.holds (c : InCond) (r : TransferRow) : Bool :=
  match r.column c.column with
  | some v => decide (v ∈ c.values)
  | none => false

/-- The projection `SELECT token_id, from_addr, to_addr, value` scanned into a
`store.Transfer`. -/
def TransferRow.toTransfer (r : TransferRow) : Transfer :=
  { Addr := r.token_id, From := r.from_addr, To := r.to_addr, Value := r.value }

/-- The `whereAttr` list that `GetTokenTransfers` builds, as conditions. -/
def whereAttr (filter : TransfersFilter) : List InCond :=
  let whereAttr : List InCond := []
  -- filter by from
  let whereAttr :=
    if filter.From.length ≠ 0 then
      whereAttr ++ [{ column := "from_addr", values := sliceAddressToString filter.From }]
    else whereAttr
  -- filter by to
  let whereAttr :=
    if filter.To.length ≠ 0 then
      whereAttr ++ [{ column := "to_addr", values := sliceAddressToString filter.To }]
    else whereAttr
  -- filter by tokens
  let whereAttr :=
    if filter.Tokens.length ≠ 0 then
      whereAttr ++ [{ column := "token_id", values := sliceAddressToString filter.Tokens }]
    else whereAttr
  whereAttr

/-- The query text that `GetTokenTransfers` sends. -/
def transfersQueryText (filter : TransfersFilter) : String :=
  let query := "SELECT token_id, from_addr, to_addr, value FROM transfers"
  let attrs := (whereAttr filter).map InCond.render
  let query :=
    if attrs.length ≠ 0 then query ++ " WHERE " ++ " AND ".intercalate attrs else query
  -- add the pagination
  query ++ filter.page.String

/-- The query text that `ListTokens` sends. -/
def tokensQueryText (p : QueryPagination) : String :=
  "SELECT id FROM tokens" ++ p.String

/-- The call `db.Select(&tokens, "SELECT id FROM tokens" + pagination)`. -/
def dbSelectTokens (s : Store) (c : Option (Int × Int)) :
    Except String (List String) × Store :=
  match popFault s.faults with
  | (true, fs) => (.error driverError, { s with faults := fs })
  | (false, fs) => (applyPagination c s.db.tokens, { s with faults := fs })

/-- The call `db.Select(&transfers, "SELECT token_id, from_addr, to_addr, value FROM
transfers" + where + pagination)`: the rows satisfying every condition, in stored
order, paginated and projected. -/
def dbSelectTransfers (s : Store) (conds : List InCond) (c : Option (Int × Int)) :
    Except String (List Transfer) × Store :=
  match popFault s.faults with
  | (true, fs) => (.error driverError, { s with faults := fs })
  | (false, fs) =>
    (applyPagination c
        ((s.db.transfers.filter (fun r => conds.all (fun w => w.holds r))).map
          TransferRow.toTransfer),
      { s with faults := fs })

/-! ## The PostgreSQL store (`store/postgresql/postgresql.go`) -/

/-- The function `decodeAddress`. -/
def decodeAddress (vals : Vals) (attr : String) : Except String Web3Address :=
  match vals.lookup attr with
  | none => .error ("key '" ++ attr ++ "' not found")
  | some (.address valStr) => .ok valStr
  | some _ => .error ("cannot convert '" ++ attr ++ "' to string")

/-- The function `decodeBigInt`. -/
def decodeBigInt (vals : Vals) (attr : String) : Except String Int :=
  match vals.lookup attr with
  | none => .error ("key '" ++ attr ++ "' not found")
  | some (.bigInt valStr) => .ok valStr
  | some _ => .error ("cannot convert '" ++ attr ++ "' to big.Int")

/-- The method `writeTokenImpl`: insert the token unless it is already there. -/
def writeTokenImpl (tx : Tx) (token : Web3Address) : Option String × Tx :=
  match txCountTokens tx token with
  | (.error err, tx) => (some err, tx)
  | (.ok count, tx) =>
    if count ≠ 0 then
      (none, tx)
    else
      match txInsertToken tx token with
      | (some err, tx) => (some err, tx)
      | (none, tx) => (none, tx)

/-- The method `writeLogImpl`. -/
def writeLogImpl (parseLog : LogDecoder) (tx : Tx) (log : Log) : Option String × Tx :=
  if log.Topics.length ≠ 3 then
    -- non-standard erc20 token
    (none, tx)
  else
    match parseLog log with
    | .error err => (some err, tx)
    | .ok vals =>
      let token := log.Address
      match writeTokenImpl tx token with
      | (some err, tx) => (some err, tx)
      | (none, tx) =>
        match decodeAddress vals "from" with
        | .error err => (some err, tx)
        | .ok from_ =>
          match decodeAddress vals "to" with
          | .error err => (some err, tx)
          | .ok to_ =>
            match decodeBigInt vals "value" with
            | .error err => (some err, tx)
            | .ok value =>
              match txInsertTransfer tx
                  { token_id := token, block_hash := log.BlockHash,
                    txn_hash := log.TransactionHash, from_addr := from_, to_addr := to_,
                    value := toString value } with
              | (some err, tx) => (some err, tx)
              | (none, tx) => (none, tx)

/-- The loop `for _, log := range logs` of `WriteReceipt`: stops at the first error. -/
def writeLogs (parseLog : LogDecoder) (tx : Tx) : List Log → Option String × Tx
  | [] => (none, tx)
  | log :: logs =>
    match writeLogImpl parseLog tx log with
    | (some err, tx) => (some err, tx)
    | (none, tx) => writeLogs parseLog tx logs

/-- WriteReceipt writes a new receipt. On an error return the transaction is never
committed, so the committed database is the one before the call. -/
def WriteReceipt (parseLog : LogDecoder) (s : Store) (logs : List Log) :
    Option String × Store :=
  match Beginx s with
  | (.error err, fs) => (some err, { s with faults := fs })
  | (.ok tx, _) =>
    match writeLogs parseLog tx logs with
    | (some err, tx) => (some err, { s with faults := tx.faults })
    | (none, tx) =>
      match Commit s tx with
      | (some err, s) => (some err, s)
      | (none, s) => (none, s)

/-- RemoveReceipts removes the receipts by block hash. -/
def RemoveReceipts (s : Store) (blockHash : Web3Hash) : Option String × Store :=
  match Beginx s with
  | (.error err, fs) => (some err, { s with faults := fs })
  | (.ok tx, _) =>
    match txDeleteTransfers tx blockHash with
    | (some err, tx) => (some err, { s with faults := tx.faults })
    | (none, tx) =>
      match Commit s tx with
      | (some err, s) => (some err, s)
      | (none, s) => (none, s)

/-- ListTokens returns the list of registered tokens. -/
def ListTokens (s : Store) (p : QueryPagination) : Except String (List String) × Store :=
  dbSelectTokens s p.clause

/-- GetTokenTransfers returns the transfers given a filter. -/
def GetTokenTransfers (s : Store) (filter : TransfersFilter) :
    Except String (List Transfer) × Store :=
  dbSelectTransfers s (whereAttr filter) filter.page.clause

/-! ## The ingestion step (`tracker/tracker.go`) -/

/-- The fields of `tracker.Event` that `Sync` reads. -/
structure Event where
  AddedLogs : List Log
  RemovedLogs : List Log
  deriving DecidableEq, Repr

/-- A call on the tracker's `Store` interface, recorded in the order issued. -/
inductive StoreCall where
  | RemoveReceipts (hash : Web3Hash)
  | WriteReceipt (logs : List Log)
  deriving DecidableEq, Repr

/-- The loop `for _, r := range evnt.RemovedLogs` of the consumer: one `RemoveReceipts`
per removed log, stopping at the first error. `calls` records the store calls issued. -/
def removeLoop (s : Store) (calls : List StoreCall) :
    List Log → Option String × Store × List StoreCall
  | [] => (none, s, calls)
  | r :: rs =>
    match RemoveReceipts s r.BlockHash with
    | (some err, s) => (some err, s, calls ++ [StoreCall.RemoveReceipts r.BlockHash])
    | (none, s) => removeLoop s (calls ++ [StoreCall.RemoveReceipts r.BlockHash]) rs

/-- The body of `case evnt := <-eventCh` in the consumer goroutine of `Sync`: the error
handed to `handleErr` (if any), the store afterwards, and the store calls issued. -/
def handleEvent (parseLog : LogDecoder) (s : Store) (evnt : Event) :
    Option String × Store × List StoreCall :=
  match removeLoop s [] evnt.RemovedLogs with
  | (some err, s, calls) => (some err, s, calls)
  | (none, s, calls) =>
    if evnt.AddedLogs.length ≠ 0 then
      match WriteReceipt parseLog s evnt.AddedLogs with
      | (some err, s) => (some err, s, calls ++ [StoreCall.WriteReceipt evnt.AddedLogs])
      | (none, s) => (none, s, calls ++ [StoreCall.WriteReceipt evnt.AddedLogs])
    else
      (none, s, calls)

/-! ## Specification vocabulary -/

/-- The transfer row a log decodes to: `abi.ParseLog` succeeds and `from`, `to`, `value`
have the expected types. -/
def rowOf (parseLog : LogDecoder) (log : Log) : Option TransferRow :=
  match parseLog log with
  | .error _ => none
  | .ok vals =>
    match decodeAddress vals "from", decodeAddress vals "to", decodeBigInt vals "value" with
    | .ok f, .ok t, .ok v =>
      some { token_id := log.Address, block_hash := log.BlockHash,
             txn_hash := log.TransactionHash, from_addr := f, to_addr := t,
             value := toString v }
    | _, _, _ => none

/-- A qualifying log: exactly three topics, and decodable. -/
def Qualifies (parseLog : LogDecoder) (log : Log) : Prop :=
  log.Topics.length = 3 ∧ (rowOf parseLog log).isSome = true

instance (parseLog : LogDecoder) (log : Log) : Decidable (Qualifies parseLog log) := by
  unfold Qualifies; infer_instance

/-- The rows a batch contributes: one per three-topic decodable log, in batch order. -/
def batchRows (parseLog : LogDecoder) (logs : List Log) : List TransferRow :=
  logs.filterMap (fun l => if l.Topics.length = 3 then rowOf parseLog l else none)

/-- Insert-if-absent on the token table. -/
def addToken (tokens : List String) (a : String) : List String :=
  if a ∈ tokens then tokens else tokens ++ [a]

/-- The token table after registering the contract address of every three-topic log. -/
def batchTokens (tokens : List String) (logs : List Log) : List String :=
  logs.foldl (fun ts l => if l.Topics.length = 3 then addToken ts l.Address else ts) tokens

/-- A stand-in for `abi.ParseLog` on the ERC20 `Transfer` event, used for the concrete
examples only: the two indexed topics are the addresses and the data is one word. -/
def sampleParseLog : LogDecoder := fun log =>
  match log.Topics, log.Data with
  | [_, f, t], [v] =>
    .ok [("from", AbiValue.address f), ("to", AbiValue.address t), ("value", AbiValue.bigInt v)]
  | _, _ => .error "abi: cannot decode log"

/-- The empty database. -/
def emptyDB : Database := { tokens := [], transfers := [] }

/-- A transfer log as `encodeERC20` of `store/testing.go` builds it. -/
def encodeERC20 (blockHash txnHash : Web3Hash) (token from_ to_ : Web3Address)
    (balance : Nat) : Log :=
  { Address := token, BlockHash := blockHash, TransactionHash := txnHash,
    Topics := ["Transfer", from_, to_], Data := [balance] }

/-- The first log of `testWriteReceipts`: token `addr3`, from `addr1` to `addr2`. -/
def logA : Log := encodeERC20 "hash1" "hash2" "addr3" "addr1" "addr2" 1000

/-- The second log of `testWriteReceipts`: token `addr4`, from `addr2` to `addr1`. -/
def logB : Log := encodeERC20 "hash1" "hash2" "addr4" "addr2" "addr1" 100

/-- A three-topic log whose data does not decode. -/
def logBad : Log :=
  { Address := "addr4", BlockHash := "hash1", TransactionHash := "hash2",
    Topics := ["Transfer", "addr2", "addr1"], Data := [] }

/-- A two-topic log. -/
def logTwo : Log :=
  { Address := "addr5", BlockHash := "hash1", TransactionHash := "hash2",
    Topics := ["Transfer", "addr2"], Data := [7] }

/-- A four-topic log. -/
def logFour : Log :=
  { Address := "addr6", BlockHash := "hash1", TransactionHash := "hash2",
    Topics := ["Transfer", "addr2", "addr1", "addr3"], Data := [7] }

/-- The filter model in the spec's words: a conjunction over the three address sets; a
non-empty set is an inclusion test and an empty set imposes no constraint. -/
def Matches (filter : TransfersFilter) (r : TransferRow) : Prop :=
  (filter.From = [] ∨ r.from_addr ∈ filter.From) ∧
  (filter.To = [] ∨ r.to_addr ∈ filter.To) ∧
  (filter.Tokens = [] ∨ r.token_id ∈ filter.Tokens)

instance (filter : TransfersFilter) (r : TransferRow) : Decidable (Matches filter r) := by
  unfold Matches; infer_instance

/-- Two stored transfers: (tokenA, from X, to Y) and (tokenB, from Z, to Y). -/
def twoTransfers : Database :=
  { tokens := ["tokenA", "tokenB"],
    transfers := [⟨"tokenA", "hash1", "txn1", "X", "Y", "5"⟩,
                  ⟨"tokenB", "hash1", "txn2", "Z", "Y", "7"⟩] }

/-- Five stored tokens. -/
def fiveTokens : Database :=
  { tokens := ["t1", "t2", "t3", "t4", "t5"], transfers := [] }

/-- The store calls one event asks for, in order: one removal per removed log, then one
write of the added logs when there are any. -/
def eventPlan (evnt : Event) : List StoreCall :=
  evnt.RemovedLogs.map (fun r => StoreCall.RemoveReceipts r.BlockHash) ++
    (if evnt.AddedLogs.length ≠ 0 then [StoreCall.WriteReceipt evnt.AddedLogs] else [])

/-- A reorg event: the two logs of block `hash1` are removed and re-established under
block `hash9`. -/
def reorgEvent : Event :=
  { AddedLogs := [encodeERC20 "hash9" "hash2" "addr3" "addr1" "addr2" 1000,
                  encodeERC20 "hash9" "hash2" "addr4" "addr2" "addr1" 100],
    RemovedLogs := [logA, logB] }

/-- Issue one call on the store. -/
def applyCall (parseLog : LogDecoder) (s : Store) : StoreCall → Option String × Store
  | StoreCall.RemoveReceipts hash => RemoveReceipts s hash
  | StoreCall.WriteReceipt logs => WriteReceipt parseLog s logs

/-- Issue a sequence of calls on the store, all of which succeed: `none` as soon as one
call returns an error, otherwise the store after the last call. -/
def applyCalls (parseLog : LogDecoder) (s : Store) : List StoreCall → Option Store
  | [] => some s
  | c :: cs =>
    match applyCall parseLog s c with
    | (some _, _) => none
    | (none, s) => applyCalls parseLog s cs

/-! ## The consumer loop of `Sync` (`tracker/tracker.go`) -/

/-- What the consumer goroutine of `Sync` has done so far: the store, whether `cancel()`
was called, the variable `syncErr`, the store calls issued, and whether the goroutine
has returned. -/
structure Consumer where
  store : Store
  cancelled : Bool
  syncErr : Option String
  calls : List StoreCall
  returned : Bool
  deriving DecidableEq, Repr

/-- The case the `select` of the consumer loop takes: an event received from `eventCh`,
or `ctx.Done()`. -/
inductive Selected where
  | evnt (e : Event)
  | done
  deriving DecidableEq, Repr

/-- The closure `handleErr`: `cancel()` and `syncErr = err`. -/
def handleErr (c : Consumer) (err : String) : Consumer :=
  { c with cancelled := true, syncErr := some err }

/-- The consumer goroutine of `Sync`, `go func() { for { select { ... } } }()`, run on
the sequence of cases its `select` takes. An exhausted sequence leaves the goroutine
blocked in `select`. -/
def consumerLoop (parseLog : LogDecoder) (c : Consumer) : List Selected → Consumer
  | [] => c
  | Selected.done :: _ => { c with returned := true }
  | Selected.evnt e :: rest =>
    match handleEvent parseLog c.store e with
    | (some err, s, calls) =>
      { handleErr { c with store := s, calls := c.calls ++ calls } err with returned := true }
    | (none, s, calls) =>
      consumerLoop parseLog { c with store := s, calls := c.calls ++ calls } rest

/-- The consumer when `Sync` starts it. -/
def startConsumer (s : Store) : Consumer :=
  { store := s, cancelled := false, syncErr := none, calls := [], returned := false }

/-- An event adding the two logs of `testWriteReceipts`. -/
def addEvent : Event := { AddedLogs := [logA, logB], RemovedLogs := [] }

/-- An event adding one more transfer under block `hash7`. -/
def lateEvent : Event :=
  { AddedLogs := [encodeERC20 "hash7" "hash2" "addr5" "addr1" "addr2" 1], RemovedLogs := [] }

/-- A fault schedule whose twelfth driver call fails. -/
def faultAtTwelfth : List Bool :=
  [false, false, false, false, false, false, false, false, false, false, false, true]

/-! ## The HTTP query service (`http/http.go`) -/

/-- The part of `http.Request` the handlers read: `r.URL.Query()`, a
`map[string][]string`, as an association list. -/
structure Request where
  query : List (String × List String)
  deriving DecidableEq, Repr

/-- The state of an `http.ResponseWriter`: the status code once the header is written,
and the body written so far. -/
structure ResponseWriter where
  statusCode : Option Nat
  body : String
  deriving DecidableEq, Repr

/-- The constant `http.StatusInternalServerError`. -/
def StatusInternalServerError : Nat := 500

/-- The constant `http.StatusOK`. -/
def StatusOK : Nat := 200

/-- The method `WriteHeader`: the first status code written stays. -/
def ResponseWriter.WriteHeader (w : ResponseWriter) (code : Nat) : ResponseWriter :=
  match w.statusCode with
  | some _ => w
  | none => { w with statusCode := some code }

/-- The method `Write`: writes the header with `StatusOK` if none was written, then
appends to the body. -/
def ResponseWriter.Write (w : ResponseWriter) (b : String) : ResponseWriter :=
  { statusCode := some (w.statusCode.getD StatusOK), body := w.body ++ b }

/-- A response writer on which nothing was written. -/
def freshWriter : ResponseWriter := { statusCode := none, body := "" }

/-- The struct `apiResult`; `Result interface{}` is a value of type `ρ`. -/
structure apiResult (ρ : Type) where
  Status : String
  Result : ρ
  deriving DecidableEq, Repr

/-- The type `endpoint`: `func(r *http.Request) (interface{}, error)`. -/
abbrev endpoint (ρ : Type) := Request → ρ × Option String

/-- The method `wrap`; `marshal` stands for `json.Marshal`, an external function. The
handler's error only selects the `Status` text; the closure `handleErr` of `wrap`
(status 500 and the error text as body) runs on a marshalling error. -/
def wrap {ρ : Type} (marshal : apiResult ρ → Except String String) (handler : endpoint ρ)
    (w : ResponseWriter) (r : Request) : ResponseWriter :=
  let handleErr := fun (err : String) =>
    (w.WriteHeader StatusInternalServerError).Write err
  match handler r with
  | (resp, err) =>
    let status := if err ≠ none then "ERROR" else "SUCCESS"
    let result : apiResult ρ := { Status := status, Result := resp }
    match marshal result with
    | .error err => handleErr err
    | .ok resultJSON => (w.WriteHeader StatusOK).Write resultJSON

/-- The function `parseSingleInt`; `atoi` stands for `strconv.Atoi`. -/
def parseSingleInt (atoi : String → Option Int) (r : Request) (name : String) : Int × Bool :=
  let vals := r.query
  match vals.lookup name with
  | none => (0, false)
  | some raw =>
    if raw.length ≠ 1 then
      (0, false)
    else
      match atoi (raw.headD "") with
      | none => (0, false)
      | some val => (val, true)

/-- The function `parsePagination`; the variadic `defaultLimit` is a list. -/
def parsePagination (atoi : String → Option Int) (r : Request) (defaultLimit : List Int) :
    QueryPagination :=
  let res : QueryPagination := { Limit := 0, Offset := 0 }
  match parseSingleInt atoi r "limit" with
  | (limit, ok) =>
    let res := { res with Limit := limit }
    let res :=
      if !ok then
        if defaultLimit.length = 1 then { res with Limit := defaultLimit.headD 0 } else res
      else res
    { res with Offset := (parseSingleInt atoi r "offset").1 }

/-- The method `Server.listTokens` on the server's store; the `interface{}` result is
`none` for `nil`. -/
def listTokens (atoi : String → Option Int) (s : Store) (r : Request) :
    (Option (List String) × Option String) × Store :=
  let query := parsePagination atoi r [100]
  match ListTokens s query with
  | (.error err, s) => ((none, some err), s)
  | (.ok tokens, s) =>
    if tokens.length = 0 then
      ((some [], none), s)
    else
      ((some tokens, none), s)

/-- A query parameter that is present but is not a single parseable integer, in the
spec's words. -/
def Malformed (atoi : String → Option Int) (r : Request) (name : String) : Prop :=
  ∃ raw, r.query.lookup name = some raw ∧ (raw.length ≠ 1 ∨ atoi (raw.headD "") = none)

/-- The value of a non-empty string of decimal digits. -/
def digitsValue (ds : List Char) : Option Nat :=
  if ds = [] then none
  else ds.foldl (fun acc ch => acc.bind (fun n =>
    if ch.isDigit then some (10 * n + (ch.toNat - 48)) else none)) (some 0)

/-- A stand-in for `strconv.Atoi`, used for the concrete examples only: an optional sign
followed by decimal digits. -/
def sampleAtoi (s : String) : Option Int :=
  match s.data with
  | '-' :: ds => (digitsValue ds).map (fun n => -(n : Int))
  | '+' :: ds => (digitsValue ds).map (fun n => (n : Int))
  | ds => (digitsValue ds).map (fun n => (n : Int))

/-- A stand-in for `json.Marshal` on the envelope of `listTokens`, used for the concrete
examples only. -/
def sampleMarshal (res : apiResult (Option (List String))) : Except String String :=
  .ok ("\x7b\"Status\":\"" ++ res.Status ++ "\",\"Result\":" ++
    (match res.Result with
     | none => "null"
     | some l => "[" ++ ",".intercalate (l.map (fun t => "\"" ++ t ++ "\"")) ++ "]") ++
    "\x7d")

/-- A request with the malformed pagination `limit=abc&offset=x`. -/
def badPageRequest : Request := { query := [("limit", ["abc"]), ("offset", ["x"])] }

/-! ## Lemmas on the write path -/

theorem popFault_cases (fs : List Bool) :
    (∃ fs', popFault fs = (true, fs')) ∨ (∃ fs', popFault fs = (false, fs')) := by
  rcases h : popFault fs with ⟨b, fs'⟩
  cases b
  · exact Or.inr ⟨fs', rfl⟩
  · exact Or.inl ⟨fs', rfl⟩

theorem count_ne_zero_iff_mem (a : String) (l : List String) : l.count a ≠ 0 ↔ a ∈ l := by
  rw [Nat.ne_zero_iff_zero_lt, List.count_pos_iff]

theorem writeTokenImpl_ok {tx tx' : Tx} {a : Web3Address}
    (h : writeTokenImpl tx a = (none, tx')) :
    tx'.db.tokens = addToken tx.db.tokens a ∧ tx'.db.transfers = tx.db.transfers := by
  unfold writeTokenImpl txCountTokens txInsertToken at h
  rcases popFault_cases tx.faults with ⟨fs, hf⟩ | ⟨fs, hf⟩
  · simp [hf] at h
  · simp only [hf] at h
    by_cases hm : a ∈ tx.db.tokens
    · have hc : tx.db.tokens.count a ≠ 0 := (count_ne_zero_iff_mem _ _).2 hm
      simp [hc] at h
      subst h
      simp [addToken, hm]
    · have hc : ¬ tx.db.tokens.count a ≠ 0 := fun hc => hm ((count_ne_zero_iff_mem _ _).1 hc)
      simp only [hc, if_false] at h
      rcases popFault_cases fs with ⟨fs2, hf2⟩ | ⟨fs2, hf2⟩
      · simp [hf2] at h
      · simp [hf2, hm] at h
        subst h
        simp [addToken, hm]

theorem txInsertTransfer_ok {tx tx' : Tx} {row : TransferRow}
    (h : txInsertTransfer tx row = (none, tx')) :
    tx'.db.tokens = tx.db.tokens ∧ tx'.db.transfers = tx.db.transfers ++ [row] := by
  unfold txInsertTransfer at h
  rcases popFault_cases tx.faults with ⟨fs, hf⟩ | ⟨fs, hf⟩
  · simp [hf] at h
  · simp [hf] at h
    subst h
    simp

theorem writeLogImpl_skip (parseLog : LogDecoder) (tx : Tx) {log : Log}
    (h : log.Topics.length ≠ 3) : writeLogImpl parseLog tx log = (none, tx) := by
  unfold writeLogImpl
  simp [h]

theorem writeLogImpl_ok {parseLog : LogDecoder} {tx tx' : Tx} {log : Log}
    (h3 : log.Topics.length = 3) (h : writeLogImpl parseLog tx log = (none, tx')) :
    ∃ row, rowOf parseLog log = some row ∧
      tx'.db.tokens = addToken tx.db.tokens log.Address ∧
      tx'.db.transfers = tx.db.transfers ++ [row] := by
  unfold writeLogImpl at h
  simp only [h3, ne_eq, not_true_eq_false, if_false] at h
  unfold rowOf
  cases hp : parseLog log with
  | error e => simp [hp] at h
  | ok vals =>
    simp only [hp] at h
    rcases hw : writeTokenImpl tx log.Address with ⟨e, tx1⟩
    cases e with
    | some e => simp [hw] at h
    | none =>
      simp only [hw] at h
      have hw' := writeTokenImpl_ok hw
      cases hf : decodeAddress vals "from" with
      | error e => simp [hf] at h
      | ok f =>
        cases ht : decodeAddress vals "to" with
        | error e => simp [hf, ht] at h
        | ok t =>
          cases hv : decodeBigInt vals "value" with
          | error e => simp [hf, ht, hv] at h
          | ok v =>
            simp only [hf, ht, hv] at h
            rcases hi : txInsertTransfer tx1 ⟨log.Address, log.BlockHash, log.TransactionHash,
              f, t, toString v⟩ with ⟨e, tx2⟩
            cases e with
            | some e => simp [hi] at h
            | none =>
              simp only [hi, Prod.mk.injEq, true_and] at h
              subst h
              have hi' := txInsertTransfer_ok hi
              refine ⟨⟨log.Address, log.BlockHash, log.TransactionHash, f, t, toString v⟩,
                ?_, by rw [hi'.1, hw'.1], by rw [hi'.2, hw'.2]⟩
              simp [hf, ht, hv]

theorem batchRows_cons (parseLog : LogDecoder) (l : Log) (logs : List Log) :
    batchRows parseLog (l :: logs) =
      (if l.Topics.length = 3 then (rowOf parseLog l).toList else []) ++
        batchRows parseLog logs := by
  unfold batchRows
  by_cases h3 : l.Topics.length = 3
  · cases hr : rowOf parseLog l <;> simp [List.filterMap_cons, h3, hr]
  · simp [List.filterMap_cons, h3]

theorem batchTokens_cons (tokens : List String) (l : Log) (logs : List Log) :
    batchTokens tokens (l :: logs) =
      batchTokens (if l.Topics.length = 3 then addToken tokens l.Address else tokens) logs := by
  simp [batchTokens]

theorem writeLogs_ok {parseLog : LogDecoder} :
    ∀ (logs : List Log) {tx tx' : Tx}, writeLogs parseLog tx logs = (none, tx') →
      tx'.db.tokens = batchTokens tx.db.tokens logs ∧
      tx'.db.transfers = tx.db.transfers ++ batchRows parseLog logs ∧
      ∀ l ∈ logs, l.Topics.length = 3 → (rowOf parseLog l).isSome = true := by
  intro logs
  induction logs with
  | nil =>
    intro tx tx' h
    simp only [writeLogs, Prod.mk.injEq, true_and] at h
    subst h
    simp [batchTokens, batchRows]
  | cons l logs ih =>
    intro tx tx' h
    unfold writeLogs at h
    rcases hw : writeLogImpl parseLog tx l with ⟨e, tx1⟩
    cases e with
    | some e => simp [hw] at h
    | none =>
      simp only [hw] at h
      obtain ⟨ht, hr, hq⟩ := ih h
      by_cases h3 : l.Topics.length = 3
      · obtain ⟨row, hrow, htok, htr⟩ := writeLogImpl_ok h3 hw
        refine ⟨?_, ?_, ?_⟩
        · rw [batchTokens_cons, ht, htok]; simp [h3]
        · rw [batchRows_cons, hr, htr]; simp [h3, hrow]
        · intro l' hl' h3'
          rcases List.mem_cons.1 hl' with rfl | hl'
          · simp [hrow]
          · exact hq l' hl' h3'
      · rw [writeLogImpl_skip parseLog tx h3] at hw
        simp only [Prod.mk.injEq, true_and] at hw
        subst hw
        refine ⟨?_, ?_, ?_⟩
        · rw [batchTokens_cons, ht]; simp [h3]
        · rw [batchRows_cons, hr]; simp [h3]
        · intro l' hl' h3'
          rcases List.mem_cons.1 hl' with rfl | hl'
          · exact absurd h3' h3
          · exact hq l' hl' h3'

theorem WriteReceipt_err_db (parseLog : LogDecoder) (s : Store) (logs : List Log)
    (h : (WriteReceipt parseLog s logs).1 ≠ none) :
    (WriteReceipt parseLog s logs).2.db = s.db := by
  unfold WriteReceipt Beginx Commit at *
  rcases popFault_cases s.faults with ⟨fs, hf⟩ | ⟨fs, hf⟩
  · simp [hf]
  · simp only [hf] at h ⊢
    rcases hw : writeLogs parseLog { db := s.db, faults := fs } logs with ⟨e, tx1⟩
    cases e with
    | some e => simp
    | none =>
      simp only [hw] at h ⊢
      rcases popFault_cases tx1.faults with ⟨fs2, hf2⟩ | ⟨fs2, hf2⟩
      · simp [hf2]
      · simp [hf2] at h

theorem WriteReceipt_ok {parseLog : LogDecoder} {s : Store} {logs : List Log}
    (h : (WriteReceipt parseLog s logs).1 = none) :
    (WriteReceipt parseLog s logs).2.db.tokens = batchTokens s.db.tokens logs ∧
    (WriteReceipt parseLog s logs).2.db.transfers =
      s.db.transfers ++ batchRows parseLog logs ∧
    ∀ l ∈ logs, l.Topics.length = 3 → (rowOf parseLog l).isSome = true := by
  unfold WriteReceipt Beginx Commit at *
  rcases popFault_cases s.faults with ⟨fs, hf⟩ | ⟨fs, hf⟩
  · simp [hf] at h
  · simp only [hf] at h ⊢
    rcases hw : writeLogs parseLog { db := s.db, faults := fs } logs with ⟨e, tx1⟩
    cases e with
    | some e => simp [hw] at h
    | none =>
      simp only [hw] at h ⊢
      have hk := writeLogs_ok logs hw
      rcases popFault_cases tx1.faults with ⟨fs2, hf2⟩ | ⟨fs2, hf2⟩
      · simp [hf2] at h
      · simp only [hf2]
        exact hk

/-! ## Runs without driver faults -/

theorem writeTokenImpl_nofault (tx : Tx) (a : Web3Address) (hf : tx.faults = []) :
    ∃ tx', writeTokenImpl tx a = (none, tx') ∧ tx'.faults = [] := by
  unfold writeTokenImpl txCountTokens txInsertToken
  simp only [hf, popFault]
  by_cases hm : a ∈ tx.db.tokens
  · have hc : tx.db.tokens.count a ≠ 0 := (count_ne_zero_iff_mem _ _).2 hm
    simp [hc]
  · have hc : ¬ tx.db.tokens.count a ≠ 0 := fun hc => hm ((count_ne_zero_iff_mem _ _).1 hc)
    simp [hc, hm]

theorem writeLogImpl_nofault (parseLog : LogDecoder) (tx : Tx) (log : Log)
    (hf : tx.faults = [])
    (hq : log.Topics.length = 3 → (rowOf parseLog log).isSome = true) :
    ∃ tx', writeLogImpl parseLog tx log = (none, tx') ∧ tx'.faults = [] := by
  by_cases h3 : log.Topics.length = 3
  · have hr := hq h3
    unfold rowOf at hr
    unfold writeLogImpl
    simp only [h3, ne_eq, not_true_eq_false, if_false]
    cases hp : parseLog log with
    | error e => simp [hp] at hr
    | ok vals =>
      simp only [hp] at hr ⊢
      obtain ⟨tx1, hw, hf1⟩ := writeTokenImpl_nofault tx log.Address hf
      simp only [hw]
      cases hfr : decodeAddress vals "from" with
      | error e => simp [hfr] at hr
      | ok f =>
        cases hto : decodeAddress vals "to" with
        | error e => simp [hfr, hto] at hr
        | ok t =>
          cases hv : decodeBigInt vals "value" with
          | error e => simp [hfr, hto, hv] at hr
          | ok v => simp [txInsertTransfer, hf1, popFault]
  · exact ⟨tx, writeLogImpl_skip parseLog tx h3, hf⟩

theorem writeLogs_nofault (parseLog : LogDecoder) :
    ∀ (logs : List Log) (tx : Tx), tx.faults = [] →
      (∀ l ∈ logs, l.Topics.length = 3 → (rowOf parseLog l).isSome = true) →
      ∃ tx', writeLogs parseLog tx logs = (none, tx') ∧ tx'.faults = [] := by
  intro logs
  induction logs with
  | nil => intro tx hf _; exact ⟨tx, rfl, hf⟩
  | cons l logs ih =>
    intro tx hf hq
    obtain ⟨tx1, hw, hf1⟩ :=
      writeLogImpl_nofault parseLog tx l hf (hq l (List.mem_cons_self _ _))
    obtain ⟨tx2, hw2, hf2⟩ := ih tx1 hf1 (fun l' hl' => hq l' (List.mem_cons_of_mem _ hl'))
    refine ⟨tx2, ?_, hf2⟩
    unfold writeLogs
    simp only [hw]
    exact hw2

theorem WriteReceipt_nofault (parseLog : LogDecoder) (s : Store) (logs : List Log)
    (hf : s.faults = [])
    (hq : ∀ l ∈ logs, l.Topics.length = 3 → (rowOf parseLog l).isSome = true) :
    (WriteReceipt parseLog s logs).1 = none ∧ (WriteReceipt parseLog s logs).2.faults = [] := by
  obtain ⟨tx1, hw, hf1⟩ := writeLogs_nofault parseLog logs { db := s.db, faults := [] } rfl hq
  unfold WriteReceipt Beginx Commit
  simp [hf, popFault, hw, hf1]

/-! ## Lemmas on removal -/

theorem RemoveReceipts_err_db (s : Store) (blockHash : Web3Hash)
    (h : (RemoveReceipts s blockHash).1 ≠ none) : (RemoveReceipts s blockHash).2.db = s.db := by
  unfold RemoveReceipts Beginx Commit txDeleteTransfers at *
  rcases popFault_cases s.faults with ⟨fs, hf⟩ | ⟨fs, hf⟩
  · simp [hf]
  · simp only [hf] at h ⊢
    rcases popFault_cases fs with ⟨fs1, hf1⟩ | ⟨fs1, hf1⟩
    · simp [hf1]
    · simp only [hf1] at h ⊢
      rcases popFault_cases fs1 with ⟨fs2, hf2⟩ | ⟨fs2, hf2⟩
      · simp [hf2]
      · simp [hf2] at h

theorem RemoveReceipts_ok {s : Store} {blockHash : Web3Hash}
    (h : (RemoveReceipts s blockHash).1 = none) :
    (RemoveReceipts s blockHash).2.db.tokens = s.db.tokens ∧
    (RemoveReceipts s blockHash).2.db.transfers =
      s.db.transfers.filter (fun r => r.block_hash ≠ blockHash) := by
  unfold RemoveReceipts Beginx Commit txDeleteTransfers at *
  rcases popFault_cases s.faults with ⟨fs, hf⟩ | ⟨fs, hf⟩
  · simp [hf] at h
  · simp only [hf] at h ⊢
    rcases popFault_cases fs with ⟨fs1, hf1⟩ | ⟨fs1, hf1⟩
    · simp [hf1] at h
    · simp only [hf1] at h ⊢
      rcases popFault_cases fs1 with ⟨fs2, hf2⟩ | ⟨fs2, hf2⟩
      · simp [hf2] at h
      · simp [hf2]

theorem RemoveReceipts_nofault (s : Store) (blockHash : Web3Hash) (hf : s.faults = []) :
    (RemoveReceipts s blockHash).1 = none ∧ (RemoveReceipts s blockHash).2.faults = [] := by
  unfold RemoveReceipts Beginx Commit txDeleteTransfers
  simp [hf, popFault]

/-! ## Lemmas on the token table -/

theorem mem_addToken (ts : List String) (a b : String) :
    b ∈ addToken ts a ↔ b ∈ ts ∨ b = a := by
  unfold addToken
  by_cases h : a ∈ ts
  · simp only [h, if_true]
    constructor
    · exact Or.inl
    · rintro (hb | rfl)
      · exact hb
      · exact h
  · simp [h]

theorem nodup_addToken (ts : List String) (a : String) (h : ts.Nodup) :
    (addToken ts a).Nodup := by
  unfold addToken
  by_cases hm : a ∈ ts
  · simpa [hm] using h
  · simp only [hm, if_false]
    rw [List.nodup_append]
    refine ⟨h, List.nodup_singleton a, ?_⟩
    intro x hx hx'
    rw [List.mem_singleton] at hx'
    subst hx'
    exact hm hx

theorem mem_batchTokens (logs : List Log) :
    ∀ (ts : List String) (a : String),
      a ∈ batchTokens ts logs ↔ a ∈ ts ∨ ∃ l ∈ logs, l.Topics.length = 3 ∧ l.Address = a := by
  induction logs with
  | nil => intro ts a; simp [batchTokens]
  | cons l logs ih =>
    intro ts a
    rw [batchTokens_cons, ih]
    by_cases h3 : l.Topics.length = 3
    · simp only [h3, if_true, mem_addToken, List.mem_cons, exists_eq_or_imp, true_and]
      constructor
      · rintro ((h | h) | h)
        · exact Or.inl h
        · exact Or.inr (Or.inl h.symm)
        · exact Or.inr (Or.inr h)
      · rintro (h | h | h)
        · exact Or.inl (Or.inl h)
        · exact Or.inl (Or.inr h.symm)
        · exact Or.inr h
    · simp [h3]

theorem nodup_batchTokens (logs : List Log) :
    ∀ (ts : List String), ts.Nodup → (batchTokens ts logs).Nodup := by
  induction logs with
  | nil => intro ts h; simpa [batchTokens] using h
  | cons l logs ih =>
    intro ts h
    rw [batchTokens_cons]
    apply ih
    by_cases h3 : l.Topics.length = 3
    · simpa [h3] using nodup_addToken ts l.Address h
    · simpa [h3] using h

theorem mem_batchRows {parseLog : LogDecoder} {logs : List Log} {l : Log} {row : TransferRow}
    (hl : l ∈ logs) (h3 : l.Topics.length = 3) (hr : rowOf parseLog l = some row) :
    row ∈ batchRows parseLog logs := by
  unfold batchRows
  rw [List.mem_filterMap]
  exact ⟨l, hl, by simp [h3, hr]⟩

/-! ## C1: a batch is written entirely or not at all -/

/-- C1: `WriteReceipt` is all-or-nothing per batch. Whenever it returns an error, the
committed tokens and transfers are exactly those before the call; a three-topic log that
does not decode, at any position of the batch, makes it return an error; and when it
returns no error, the transfer table is the old one followed by one row per three-topic
log of the batch, each such log's row is stored and its token is registered. -/
theorem WriteReceipt_all_or_nothing (parseLog : LogDecoder) (s : Store) (logs : List Log) :
    ((WriteReceipt parseLog s logs).1 ≠ none → (WriteReceipt parseLog s logs).2.db = s.db) ∧
    ((∃ l ∈ logs, l.Topics.length = 3 ∧ rowOf parseLog l = none) →
      (WriteReceipt parseLog s logs).1 ≠ none) ∧
    ((WriteReceipt parseLog s logs).1 = none →
      (WriteReceipt parseLog s logs).2.db.transfers =
        s.db.transfers ++ batchRows parseLog logs ∧
      ∀ l ∈ logs, l.Topics.length = 3 →
        ∃ row, rowOf parseLog l = some row ∧
          row ∈ (WriteReceipt parseLog s logs).2.db.transfers ∧
          l.Address ∈ (WriteReceipt parseLog s logs).2.db.tokens) := by
  refine ⟨WriteReceipt_err_db parseLog s logs, ?_, ?_⟩
  · rintro ⟨l, hl, h3, hr⟩ hnone
    have hq := (WriteReceipt_ok hnone).2.2 l hl h3
    simp [hr] at hq
  · intro hnone
    obtain ⟨ht, hr, hq⟩ := WriteReceipt_ok hnone
    refine ⟨hr, ?_⟩
    intro l hl h3
    obtain ⟨row, hrow⟩ := Option.isSome_iff_exists.1 (hq l hl h3)
    refine ⟨row, hrow, ?_, ?_⟩
    · rw [hr]
      exact List.mem_append_right _ (mem_batchRows hl h3 hrow)
    · rw [ht, mem_batchTokens]
      exact Or.inr ⟨l, hl, h3, rfl⟩

/-- C1 at two concrete batches: in the first the second log fails to decode after the
first was written inside the transaction; in the second the driver fails on the sixth
call, the token insert of the second log. Both calls error and the committed database is
untouched. -/
theorem WriteReceipt_all_or_nothing_witness :
    ((WriteReceipt sampleParseLog ⟨emptyDB, []⟩ [logA, logBad]).1 ≠ none ∧
      (WriteReceipt sampleParseLog ⟨emptyDB, []⟩ [logA, logBad]).2.db = emptyDB) ∧
    ((WriteReceipt sampleParseLog ⟨emptyDB, [false, false, false, false, false, true]⟩
        [logA, logB]).1 = some driverError ∧
      (WriteReceipt sampleParseLog ⟨emptyDB, [false, false, false, false, false, true]⟩
        [logA, logB]).2.db = emptyDB) :=
  ⟨⟨by decide,
    (WriteReceipt_all_or_nothing sampleParseLog ⟨emptyDB, []⟩ [logA, logBad]).1 (by decide)⟩,
   ⟨by decide,
    (WriteReceipt_all_or_nothing sampleParseLog
      ⟨emptyDB, [false, false, false, false, false, true]⟩ [logA, logB]).1 (by decide)⟩⟩

/-! ## Lemmas on reads -/

theorem sliceAddressToString_eq (w : List Web3Address) : sliceAddressToString w = w := by
  unfold sliceAddressToString
  have key : ∀ (l acc : List String), l.foldl (fun resp i => resp ++ [i]) acc = acc ++ l := by
    intro l
    induction l with
    | nil => intro acc; simp
    | cons x xs ih => intro acc; simp [ih]
  simpa using key w []

theorem GetTokenTransfers_nofault (db : Database) (filter : TransfersFilter) :
    (GetTokenTransfers ⟨db, []⟩ filter).1 =
      applyPagination filter.page.clause
        ((db.transfers.filter (fun r => (whereAttr filter).all (fun w => w.holds r))).map
          TransferRow.toTransfer) := by
  simp [GetTokenTransfers, dbSelectTransfers, popFault]

theorem ListTokens_nofault (db : Database) (p : QueryPagination) :
    (ListTokens ⟨db, []⟩ p).1 = applyPagination p.clause db.tokens := by
  simp [ListTokens, dbSelectTokens, popFault]

theorem rowOf_fields {parseLog : LogDecoder} {l : Log} {row : TransferRow}
    (h : rowOf parseLog l = some row) :
    row.token_id = l.Address ∧ row.block_hash = l.BlockHash ∧
      row.txn_hash = l.TransactionHash := by
  unfold rowOf at h
  cases hp : parseLog l with
  | error e => simp [hp] at h
  | ok vals =>
    simp only [hp] at h
    split at h
    · simp only [Option.some.injEq] at h
      subst h
      exact ⟨rfl, rfl, rfl⟩
    · exact absurd h (by simp)

theorem batchRows_origin {parseLog : LogDecoder} {logs : List Log} {row : TransferRow}
    (h : row ∈ batchRows parseLog logs) :
    ∃ l ∈ logs, l.Topics.length = 3 ∧ rowOf parseLog l = some row := by
  unfold batchRows at h
  rw [List.mem_filterMap] at h
  obtain ⟨l, hl, hr⟩ := h
  by_cases h3 : l.Topics.length = 3
  · exact ⟨l, hl, h3, by simpa [h3] using hr⟩
  · simp [h3] at hr

/-! ## C2: removal by block hash -/

/-- C2: a successful `RemoveReceipts(B)` leaves the token rows unchanged and leaves
exactly the transfers whose block hash differs from `B`: none under `B` remains, every
transfer under another hash is kept, and a read after the removal returns exactly the
matching transfers of the other blocks. After writing a batch under `B` only and
removing `B`, the batch's transfers are gone: the transfer table is the earlier one
without `B`, and from an empty store `GetTokenTransfers` returns no transfers. -/
theorem RemoveReceipts_removes_block (s : Store) (B : Web3Hash)
    (h : (RemoveReceipts s B).1 = none) :
    (RemoveReceipts s B).2.db.tokens = s.db.tokens ∧
    (RemoveReceipts s B).2.db.transfers = s.db.transfers.filter (fun r => r.block_hash ≠ B) ∧
    (∀ r ∈ (RemoveReceipts s B).2.db.transfers, r.block_hash ≠ B) ∧
    (∀ r ∈ s.db.transfers, r.block_hash ≠ B → r ∈ (RemoveReceipts s B).2.db.transfers) ∧
    (∀ filter : TransfersFilter, filter.page.Limit = 0 →
      (GetTokenTransfers ⟨(RemoveReceipts s B).2.db, []⟩ filter).1 =
        .ok (((s.db.transfers.filter (fun r => r.block_hash ≠ B)).filter
          (fun r => (whereAttr filter).all (fun w => w.holds r))).map
            TransferRow.toTransfer)) ∧
    (∀ (parseLog : LogDecoder) (s0 : Store) (logs : List Log),
      (∀ l ∈ logs, l.BlockHash = B) →
      (WriteReceipt parseLog s0 logs).1 = none →
      (WriteReceipt parseLog s0 logs).2 = s →
      (RemoveReceipts s B).2.db.transfers =
        s0.db.transfers.filter (fun r => r.block_hash ≠ B) ∧
      (s0.db = emptyDB → ∀ filter : TransfersFilter, filter.page.Limit = 0 →
        (GetTokenTransfers ⟨(RemoveReceipts s B).2.db, []⟩ filter).1 = .ok [])) := by
  obtain ⟨ht, hr⟩ := RemoveReceipts_ok h
  have hgone : ∀ (parseLog : LogDecoder) (s0 : Store) (logs : List Log),
      (∀ l ∈ logs, l.BlockHash = B) →
      (WriteReceipt parseLog s0 logs).1 = none →
      (WriteReceipt parseLog s0 logs).2 = s →
      (RemoveReceipts s B).2.db.transfers =
        s0.db.transfers.filter (fun r => r.block_hash ≠ B) := by
    intro parseLog s0 logs hB hw hs
    rw [hr, ← hs, (WriteReceipt_ok hw).2.1, List.filter_append]
    have hnil : (batchRows parseLog logs).filter (fun r => r.block_hash ≠ B) = [] := by
      rw [List.filter_eq_nil_iff]
      intro r hrm
      obtain ⟨l, hl, _, hrow⟩ := batchRows_origin hrm
      simp [(rowOf_fields hrow).2.1, hB l hl]
    rw [hnil, List.append_nil]
  refine ⟨ht, hr, ?_, ?_, ?_, ?_⟩
  · intro r hrm
    rw [hr, List.mem_filter] at hrm
    simpa using hrm.2
  · intro r hrm hne
    rw [hr, List.mem_filter]
    exact ⟨hrm, by simpa using hne⟩
  · intro filter hl
    rw [GetTokenTransfers_nofault, hr]
    simp [QueryPagination.clause, hl, applyPagination]
  · intro parseLog s0 logs hB hw hs
    refine ⟨hgone parseLog s0 logs hB hw hs, ?_⟩
    intro he filter hl
    rw [GetTokenTransfers_nofault, hgone parseLog s0 logs hB hw hs, he]
    simp [QueryPagination.clause, hl, applyPagination, emptyDB]

/-- C2 on the scenario of `testWriteReceipts`: two logs are written under `hash1`, then
`hash1` is removed; both tokens stay and no transfer is left. -/
theorem RemoveReceipts_removes_block_witness :
    (RemoveReceipts (WriteReceipt sampleParseLog ⟨emptyDB, []⟩ [logA, logB]).2 "hash1").1
      = none ∧
    (RemoveReceipts (WriteReceipt sampleParseLog ⟨emptyDB, []⟩ [logA, logB]).2
      "hash1").2.db.tokens = ["addr3", "addr4"] ∧
    (GetTokenTransfers
      ⟨(RemoveReceipts (WriteReceipt sampleParseLog ⟨emptyDB, []⟩ [logA, logB]).2
        "hash1").2.db, []⟩ ⟨⟨0, 0⟩, [], [], ["addr3", "addr4"]⟩).1 = .ok [] :=
  have h := RemoveReceipts_removes_block
    (WriteReceipt sampleParseLog ⟨emptyDB, []⟩ [logA, logB]).2 "hash1" (by decide)
  ⟨by decide, h.1.trans (by decide),
   (h.2.2.2.2.2 sampleParseLog ⟨emptyDB, []⟩ [logA, logB] (by decide) (by decide) rfl).2 rfl
     ⟨⟨0, 0⟩, [], [], ["addr3", "addr4"]⟩ rfl⟩

/-! ## C3: write/read round trip -/

theorem rowOf_decoded {parseLog : LogDecoder} {l : Log} {row : TransferRow}
    (h : rowOf parseLog l = some row) :
    ∃ vals f t v, parseLog l = .ok vals ∧ decodeAddress vals "from" = .ok f ∧
      decodeAddress vals "to" = .ok t ∧ decodeBigInt vals "value" = .ok v ∧
      row = ⟨l.Address, l.BlockHash, l.TransactionHash, f, t, toString v⟩ := by
  unfold rowOf at h
  cases hp : parseLog l with
  | error e => simp [hp] at h
  | ok vals =>
    simp only [hp] at h
    split at h
    · rename_i f t v hf ht hv
      simp only [Option.some.injEq] at h
      exact ⟨vals, f, t, v, rfl, hf, ht, hv, h.symm⟩
    · exact absurd h (by simp)

theorem forall₂_batchRows (parseLog : LogDecoder) :
    ∀ logs : List Log, (∀ l ∈ logs, Qualifies parseLog l) →
      List.Forall₂ (fun l r => rowOf parseLog l = some r) logs (batchRows parseLog logs) := by
  intro logs
  induction logs with
  | nil => intro _; simp [batchRows]
  | cons l logs ih =>
    intro hq
    obtain ⟨h3, hs⟩ := hq l (List.mem_cons_self _ _)
    obtain ⟨row, hrow⟩ := Option.isSome_iff_exists.1 hs
    rw [batchRows_cons]
    simp only [h3, if_true, hrow, Option.toList, List.singleton_append]
    exact List.Forall₂.cons hrow (ih (fun l' hl' => hq l' (List.mem_cons_of_mem _ hl')))

theorem whereAttr_tokens_only {filter : TransfersFilter}
    (hfrom : filter.From = []) (hto : filter.To = []) (r : TransferRow)
    (hr : r.token_id ∈ filter.Tokens) :
    (whereAttr filter).all (fun w => w.holds r) = true := by
  have hne : filter.Tokens.length ≠ 0 := by
    intro h0
    rw [List.length_eq_zero] at h0
    rw [h0] at hr
    exact absurd hr (List.not_mem_nil _)
  simp [whereAttr, hfrom, hto, hne, InCond.holds, TransferRow.column,
    sliceAddressToString_eq, hr]

/-- C3: write/read round trip. For a batch of qualifying (three-topic, decodable) logs,
`WriteReceipt` on the empty store succeeds when the driver does not fail, and after any
successful `WriteReceipt` of the batch on the empty store, `GetTokenTransfers` with a
`Tokens` filter listing the logs' contract addresses, no `From`/`To` and no limit returns
exactly one transfer per log, in batch order, each carrying that log's token address,
decoded from, decoded to and the decimal rendering of the decoded value. -/
theorem write_read_round_trip (parseLog : LogDecoder) (logs : List Log)
    (filter : TransfersFilter)
    (hq : ∀ l ∈ logs, Qualifies parseLog l)
    (hfrom : filter.From = []) (hto : filter.To = [])
    (htok : ∀ l ∈ logs, l.Address ∈ filter.Tokens)
    (hlim : filter.page.Limit = 0) :
    (WriteReceipt parseLog ⟨emptyDB, []⟩ logs).1 = none ∧
    ∀ fs : List Bool, (WriteReceipt parseLog ⟨emptyDB, fs⟩ logs).1 = none →
      ∃ ts : List Transfer,
        (GetTokenTransfers ⟨(WriteReceipt parseLog ⟨emptyDB, fs⟩ logs).2.db, []⟩ filter).1
          = .ok ts ∧
        ts.length = logs.length ∧
        List.Forall₂ (fun l t => ∃ vals f t' v, parseLog l = .ok vals ∧
          decodeAddress vals "from" = .ok f ∧ decodeAddress vals "to" = .ok t' ∧
          decodeBigInt vals "value" = .ok v ∧
          t = { Addr := l.Address, From := f, To := t', Value := toString v }) logs ts := by
  refine ⟨(WriteReceipt_nofault parseLog ⟨emptyDB, []⟩ logs rfl (fun l hl _ => (hq l hl).2)).1,
    ?_⟩
  intro fs hw
  have hrows := (WriteReceipt_ok hw).2.1
  have hall : (batchRows parseLog logs).filter
      (fun r => (whereAttr filter).all (fun w => w.holds r)) = batchRows parseLog logs := by
    rw [List.filter_eq_self]
    intro r hr
    obtain ⟨l, hl, _, hrow⟩ := batchRows_origin hr
    apply whereAttr_tokens_only hfrom hto
    rw [(rowOf_fields hrow).1]
    exact htok l hl
  have hf2 := forall₂_batchRows parseLog logs hq
  refine ⟨(batchRows parseLog logs).map TransferRow.toTransfer, ?_, ?_, ?_⟩
  · rw [GetTokenTransfers_nofault, hrows]
    simp [QueryPagination.clause, hlim, applyPagination, emptyDB, hall]
  · rw [List.length_map]
    exact hf2.length_eq.symm
  · rw [List.forall₂_map_right_iff]
    refine hf2.imp ?_
    intro l r hrow
    obtain ⟨vals, f, t, v, hp, hf, ht, hv, hr⟩ := rowOf_decoded hrow
    exact ⟨vals, f, t, v, hp, hf, ht, hv, by rw [hr]; rfl⟩

/-- C3 on the batch of `testWriteReceipts`: two logs, two transfers. -/
theorem write_read_round_trip_witness :
    (WriteReceipt sampleParseLog ⟨emptyDB, []⟩ [logA, logB]).1 = none ∧
    (GetTokenTransfers ⟨(WriteReceipt sampleParseLog ⟨emptyDB, []⟩ [logA, logB]).2.db, []⟩
      ⟨⟨0, 0⟩, [], [], ["addr3", "addr4"]⟩).1 =
      .ok [⟨"addr3", "addr1", "addr2", "1000"⟩, ⟨"addr4", "addr2", "addr1", "100"⟩] :=
  have h := write_read_round_trip sampleParseLog [logA, logB]
    ⟨⟨0, 0⟩, [], [], ["addr3", "addr4"]⟩ (by decide) rfl rfl (by decide) rfl
  ⟨h.1, by rfl⟩

/-! ## C4: shape filtering -/

theorem writeLogs_filter (parseLog : LogDecoder) :
    ∀ (logs : List Log) (tx : Tx),
      writeLogs parseLog tx logs =
        writeLogs parseLog tx (logs.filter (fun l => l.Topics.length = 3)) := by
  intro logs
  induction logs with
  | nil => intro tx; rfl
  | cons l logs ih =>
    intro tx
    by_cases h3 : l.Topics.length = 3
    · simp only [List.filter_cons, h3, decide_True, if_true]
      unfold writeLogs
      rcases writeLogImpl parseLog tx l with ⟨e, tx1⟩
      cases e with
      | some e => rfl
      | none => exact ih tx1
    · simp only [List.filter_cons, h3, decide_False, Bool.false_eq_true, if_false]
      rw [← ih tx]
      conv_lhs => unfold writeLogs
      rw [writeLogImpl_skip parseLog tx h3]

theorem WriteReceipt_filter (parseLog : LogDecoder) (s : Store) (logs : List Log) :
    WriteReceipt parseLog s logs =
      WriteReceipt parseLog s (logs.filter (fun l => l.Topics.length = 3)) := by
  unfold WriteReceipt
  rcases Beginx s with ⟨r, fs⟩
  cases r with
  | error e => rfl
  | ok tx => simp only [← writeLogs_filter parseLog logs tx]

theorem WriteReceipt_nil_error (parseLog : LogDecoder) (s : Store) :
    ((WriteReceipt parseLog s []).1 = none ↔ ∀ b ∈ s.faults.take 2, b = false) ∧
    (WriteReceipt parseLog s []).2.db = s.db := by
  rcases s with ⟨db, fs⟩
  unfold WriteReceipt Beginx Commit writeLogs
  match fs with
  | [] => simp [popFault]
  | [b] => cases b <;> simp [popFault]
  | b :: c :: fs => cases b <;> cases c <;> simp [popFault]

/-- C4: shape filtering. On a batch in which every log has a topic count other than 3,
`WriteReceipt` behaves exactly as on the empty batch: tokens and transfers are unchanged,
and it returns no error unless the driver itself fails to begin or to commit the
transaction. In any batch, the logs with a topic count other than 3 contribute nothing:
the call is the call on the three-topic logs alone. -/
theorem WriteReceipt_shape_filtering (parseLog : LogDecoder) (s : Store) (logs : List Log)
    (hshape : ∀ l ∈ logs, l.Topics.length ≠ 3) :
    WriteReceipt parseLog s logs = WriteReceipt parseLog s [] ∧
    (WriteReceipt parseLog s logs).2.db = s.db ∧
    ((WriteReceipt parseLog s logs).1 = none ↔ ∀ b ∈ s.faults.take 2, b = false) ∧
    (s.faults = [] → (WriteReceipt parseLog s logs).1 = none) ∧
    (∀ mixed : List Log,
      WriteReceipt parseLog s mixed =
        WriteReceipt parseLog s (mixed.filter (fun l => l.Topics.length = 3))) := by
  have hnil : logs.filter (fun l => l.Topics.length = 3) = [] := by
    rw [List.filter_eq_nil_iff]
    intro l hl
    simpa using hshape l hl
  have heq : WriteReceipt parseLog s logs = WriteReceipt parseLog s [] := by
    rw [WriteReceipt_filter, hnil]
  have hn := WriteReceipt_nil_error parseLog s
  refine ⟨heq, ?_, ?_, ?_, WriteReceipt_filter parseLog s⟩
  · rw [heq]; exact hn.2
  · rw [heq]; exact hn.1
  · intro hf
    rw [heq]
    exact hn.1.2 (by simp [hf])

/-- C4 on a batch of a two-topic and a four-topic log over a populated store. -/
theorem WriteReceipt_shape_filtering_witness :
    (WriteReceipt sampleParseLog ⟨⟨["addr3"], []⟩, []⟩ [logTwo, logFour]).1 = none ∧
    (WriteReceipt sampleParseLog ⟨⟨["addr3"], []⟩, []⟩ [logTwo, logFour]).2.db
      = ⟨["addr3"], []⟩ :=
  have h := WriteReceipt_shape_filtering sampleParseLog ⟨⟨["addr3"], []⟩, []⟩
    [logTwo, logFour] (by decide)
  ⟨h.2.2.2.1 rfl, h.2.1⟩

/-! ## C5: re-ingesting a log -/

theorem batchRows_single {parseLog : LogDecoder} {l : Log} {row : TransferRow}
    (h3 : l.Topics.length = 3) (hr : rowOf parseLog l = some row) :
    batchRows parseLog [l] = [row] := by
  simp [batchRows, h3, hr]

/-- C5, as stated, fails: writing the log of `testWriteReceipts` twice (both calls
succeed) leaves its transfer row twice in the table, and `GetTokenTransfers` returns it
twice, whereas one write leaves it once. -/
theorem reingest_duplicates_transfer :
    (WriteReceipt sampleParseLog ⟨emptyDB, []⟩ [logA]).1 = none ∧
    (WriteReceipt sampleParseLog (WriteReceipt sampleParseLog ⟨emptyDB, []⟩ [logA]).2
      [logA]).1 = none ∧
    (WriteReceipt sampleParseLog ⟨emptyDB, []⟩ [logA]).2.db.transfers =
      [⟨"addr3", "hash1", "hash2", "addr1", "addr2", "1000"⟩] ∧
    (WriteReceipt sampleParseLog (WriteReceipt sampleParseLog ⟨emptyDB, []⟩ [logA]).2
      [logA]).2.db.transfers =
      [⟨"addr3", "hash1", "hash2", "addr1", "addr2", "1000"⟩,
       ⟨"addr3", "hash1", "hash2", "addr1", "addr2", "1000"⟩] ∧
    (WriteReceipt sampleParseLog (WriteReceipt sampleParseLog ⟨emptyDB, []⟩ [logA]).2
      [logA]).2.db.transfers ≠
      (WriteReceipt sampleParseLog ⟨emptyDB, []⟩ [logA]).2.db.transfers ∧
    (GetTokenTransfers
      ⟨(WriteReceipt sampleParseLog (WriteReceipt sampleParseLog ⟨emptyDB, []⟩ [logA]).2
        [logA]).2.db, []⟩ ⟨⟨0, 0⟩, [], [], ["addr3"]⟩).1 =
      .ok [⟨"addr3", "addr1", "addr2", "1000"⟩, ⟨"addr3", "addr1", "addr2", "1000"⟩] := by
  refine ⟨by decide, by decide, by decide, by decide, by decide, by rfl⟩

/-- C5, amended: for every store state and every qualifying log `L`, when
`WriteReceipt([L])` is applied twice and both calls succeed, the second call appends
`L`'s transfer row once more (the transfer table is the original one followed by the row
twice), while the token table the first call left is unchanged by the second. -/
theorem reingest_appends_again (parseLog : LogDecoder) (s : Store) (L : Log)
    (hq : Qualifies parseLog L)
    (h1 : (WriteReceipt parseLog s [L]).1 = none)
    (h2 : (WriteReceipt parseLog (WriteReceipt parseLog s [L]).2 [L]).1 = none) :
    ∃ row, rowOf parseLog L = some row ∧
      (WriteReceipt parseLog s [L]).2.db.transfers = s.db.transfers ++ [row] ∧
      (WriteReceipt parseLog (WriteReceipt parseLog s [L]).2 [L]).2.db.transfers =
        s.db.transfers ++ [row, row] ∧
      (WriteReceipt parseLog (WriteReceipt parseLog s [L]).2 [L]).2.db.tokens =
        (WriteReceipt parseLog s [L]).2.db.tokens := by
  obtain ⟨row, hrow⟩ := Option.isSome_iff_exists.1 hq.2
  obtain ⟨ht1, hr1, _⟩ := WriteReceipt_ok h1
  obtain ⟨ht2, hr2, _⟩ := WriteReceipt_ok h2
  have hmem : L.Address ∈ (WriteReceipt parseLog s [L]).2.db.tokens := by
    rw [ht1, mem_batchTokens]
    exact Or.inr ⟨L, List.mem_singleton_self L, hq.1, rfl⟩
  refine ⟨row, hrow, ?_, ?_, ?_⟩
  · rw [hr1, batchRows_single hq.1 hrow]
  · rw [hr2, hr1, batchRows_single hq.1 hrow]
    simp
  · rw [ht2]
    simp [batchTokens, hq.1, addToken, hmem]

/-- C5, amended, at the log of `testWriteReceipts` on the empty store. -/
theorem reingest_appends_again_witness :
    ∃ row, rowOf sampleParseLog logA = some row ∧
      (WriteReceipt sampleParseLog ⟨emptyDB, []⟩ [logA]).2.db.transfers
        = emptyDB.transfers ++ [row] ∧
      (WriteReceipt sampleParseLog (WriteReceipt sampleParseLog ⟨emptyDB, []⟩ [logA]).2
        [logA]).2.db.transfers = emptyDB.transfers ++ [row, row] ∧
      (WriteReceipt sampleParseLog (WriteReceipt sampleParseLog ⟨emptyDB, []⟩ [logA]).2
        [logA]).2.db.tokens = (WriteReceipt sampleParseLog ⟨emptyDB, []⟩ [logA]).2.db.tokens :=
  reingest_appends_again sampleParseLog ⟨emptyDB, []⟩ logA (by decide) (by decide) (by decide)

/-! ## C6: token registration -/

theorem applyCalls_tokens (parseLog : LogDecoder) :
    ∀ (calls : List StoreCall) (s s' : Store), applyCalls parseLog s calls = some s' →
      (s.db.tokens.Nodup → s'.db.tokens.Nodup) ∧
      ∀ a, a ∈ s'.db.tokens ↔ a ∈ s.db.tokens ∨
        ∃ logs l, StoreCall.WriteReceipt logs ∈ calls ∧ l ∈ logs ∧
          l.Topics.length = 3 ∧ l.Address = a := by
  intro calls
  induction calls with
  | nil =>
    intro s s' h
    simp only [applyCalls, Option.some.injEq] at h
    subst h
    simp
  | cons c cs ih =>
    intro s s' h
    unfold applyCalls at h
    rcases hc : applyCall parseLog s c with ⟨e, s1⟩
    cases e with
    | some e => simp [hc] at h
    | none =>
      simp only [hc] at h
      obtain ⟨hnd, hmem⟩ := ih s1 s' h
      cases c with
      | RemoveReceipts hash =>
        have hk : (RemoveReceipts s hash).1 = none := by
          simpa [applyCall] using congrArg Prod.fst hc
        have hs1 : s1 = (RemoveReceipts s hash).2 := by
          simpa [applyCall] using (congrArg Prod.snd hc).symm
        have ht := (RemoveReceipts_ok hk).1
        rw [← hs1] at ht
        refine ⟨fun h0 => hnd (ht ▸ h0), ?_⟩
        intro a
        rw [hmem a, ht]
        simp
      | WriteReceipt logs =>
        have hk : (WriteReceipt parseLog s logs).1 = none := by
          simpa [applyCall] using congrArg Prod.fst hc
        have hs1 : s1 = (WriteReceipt parseLog s logs).2 := by
          simpa [applyCall] using (congrArg Prod.snd hc).symm
        have ht := (WriteReceipt_ok hk).1
        rw [← hs1] at ht
        refine ⟨fun h0 => hnd (ht ▸ nodup_batchTokens logs _ h0), ?_⟩
        intro a
        rw [hmem a, ht, mem_batchTokens]
        constructor
        · rintro ((h0 | ⟨l, hl, h3, ha⟩) | ⟨logs', l, hw, hl, h3, ha⟩)
          · exact Or.inl h0
          · exact Or.inr ⟨logs, l, List.mem_cons_self _ _, hl, h3, ha⟩
          · exact Or.inr ⟨logs', l, List.mem_cons_of_mem _ hw, hl, h3, ha⟩
        · rintro (h0 | ⟨logs', l, hw, hl, h3, ha⟩)
          · exact Or.inl (Or.inl h0)
          · rcases List.mem_cons.1 hw with heq | hw
            · simp only [StoreCall.WriteReceipt.injEq] at heq
              subst heq
              exact Or.inl (Or.inr ⟨l, hl, h3, ha⟩)
            · exact Or.inr ⟨logs', l, hw, hl, h3, ha⟩

/-- C6: token registration is idempotent. Starting from the empty store, after any
sequence of successful `WriteReceipt` and `RemoveReceipts` calls, `ListTokens` with no
limit returns the token table, which has no repetition and holds exactly the contract
addresses of the written three-topic logs (each of which decoded, the calls having
succeeded): every such address occurs exactly once, whether its transfers arrived in one
batch or in several, and removals retract no token. -/
theorem token_registration_idempotent (parseLog : LogDecoder) (fs : List Bool)
    (calls : List StoreCall) (s' : Store)
    (h : applyCalls parseLog ⟨emptyDB, fs⟩ calls = some s') :
    (∀ p : QueryPagination, p.Limit = 0 → (ListTokens ⟨s'.db, []⟩ p).1 = .ok s'.db.tokens) ∧
    s'.db.tokens.Nodup ∧
    (∀ a, a ∈ s'.db.tokens ↔
      ∃ logs l, StoreCall.WriteReceipt logs ∈ calls ∧ l ∈ logs ∧
        l.Topics.length = 3 ∧ l.Address = a) ∧
    (∀ logs l, StoreCall.WriteReceipt logs ∈ calls → l ∈ logs → l.Topics.length = 3 →
      s'.db.tokens.count l.Address = 1) := by
  obtain ⟨hnd, hmem⟩ := applyCalls_tokens parseLog calls ⟨emptyDB, fs⟩ s' h
  have hnd' : s'.db.tokens.Nodup := hnd (by simp [emptyDB])
  have hmem' : ∀ a, a ∈ s'.db.tokens ↔
      ∃ logs l, StoreCall.WriteReceipt logs ∈ calls ∧ l ∈ logs ∧
        l.Topics.length = 3 ∧ l.Address = a := by
    intro a
    rw [hmem a]
    simp [emptyDB]
  refine ⟨?_, hnd', hmem', ?_⟩
  · intro p hp
    rw [ListTokens_nofault]
    simp [QueryPagination.clause, hp, applyPagination]
  · intro logs l hw hl h3
    exact List.count_eq_one_of_mem hnd' ((hmem' l.Address).2 ⟨logs, l, hw, hl, h3, rfl⟩)

/-- C6 on a run that writes two tokens in one batch, removes their block and writes one
of the tokens again in a separate batch: exactly the two tokens are listed. -/
theorem token_registration_idempotent_witness :
    ∃ s', applyCalls sampleParseLog ⟨emptyDB, []⟩
        [StoreCall.WriteReceipt [logA, logB], StoreCall.RemoveReceipts "hash1",
         StoreCall.WriteReceipt [logA]] = some s' ∧
      (ListTokens ⟨s'.db, []⟩ ⟨0, 0⟩).1 = .ok s'.db.tokens ∧
      s'.db.tokens = ["addr3", "addr4"] :=
  ⟨⟨⟨["addr3", "addr4"], [⟨"addr3", "hash1", "hash2", "addr1", "addr2", "1000"⟩]⟩, []⟩,
    by decide,
    (token_registration_idempotent sampleParseLog []
      [StoreCall.WriteReceipt [logA, logB], StoreCall.RemoveReceipts "hash1",
       StoreCall.WriteReceipt [logA]]
      ⟨⟨["addr3", "addr4"], [⟨"addr3", "hash1", "hash2", "addr1", "addr2", "1000"⟩]⟩, []⟩
      (by decide)).1 ⟨0, 0⟩ rfl,
    rfl⟩

/-! ## C7: filter semantics -/

theorem renderPagination_clause (q : QueryPagination) :
    renderPagination q.clause = q.String := by
  unfold QueryPagination.clause QueryPagination.String
  by_cases h : q.Limit = 0 <;> simp [h, renderPagination]

theorem whereAttr_holds_iff (filter : TransfersFilter) (r : TransferRow) :
    (whereAttr filter).all (fun w => w.holds r) = true ↔ Matches filter r := by
  unfold Matches whereAttr
  rcases filter with ⟨page, fr, tos, tk⟩
  cases fr <;> cases tos <;> cases tk <;>
    simp [InCond.holds, TransferRow.column, sliceAddressToString_eq, and_assoc]

theorem whereAttr_ne_nil_iff (filter : TransfersFilter) :
    whereAttr filter ≠ [] ↔ filter.From ≠ [] ∨ filter.To ≠ [] ∨ filter.Tokens ≠ [] := by
  unfold whereAttr
  rcases filter with ⟨page, fr, tos, tk⟩
  cases fr <;> cases tos <;> cases tk <;> simp

theorem GetTokenTransfers_eq_matches (filter : TransfersFilter) (db : Database) :
    (GetTokenTransfers ⟨db, []⟩ filter).1 =
      applyPagination filter.page.clause
        ((db.transfers.filter (fun r => decide (Matches filter r))).map
          TransferRow.toTransfer) := by
  rw [GetTokenTransfers_nofault]
  congr 2
  apply List.filter_congr
  intro r _
  rw [Bool.eq_iff_iff, whereAttr_holds_iff]
  simp

/-- C7: filter semantics of `GetTokenTransfers`. The conditions of the query built hold on
a stored transfer iff (`From` is empty or its from address is in `From`) and (`To` is
empty or its to address is in `To`) and (`Tokens` is empty or its token address is in
`Tokens`); the query has a `WHERE` clause iff at least one set is non-empty (its text is
the bare `SELECT` followed by the pagination when all are empty, and carries ` WHERE `
with the conditions joined by ` AND ` otherwise); an all-empty filter matches every
transfer; and the call returns the matching transfers in stored order, paginated. -/
theorem GetTokenTransfers_filter_semantics (filter : TransfersFilter) :
    (∀ r : TransferRow, (whereAttr filter).all (fun w => w.holds r) = true ↔
      Matches filter r) ∧
    (whereAttr filter ≠ [] ↔ filter.From ≠ [] ∨ filter.To ≠ [] ∨ filter.Tokens ≠ []) ∧
    (whereAttr filter = [] →
      transfersQueryText filter =
        "SELECT token_id, from_addr, to_addr, value FROM transfers" ++ filter.page.String) ∧
    (whereAttr filter ≠ [] →
      transfersQueryText filter =
        "SELECT token_id, from_addr, to_addr, value FROM transfers" ++ " WHERE " ++
          " AND ".intercalate ((whereAttr filter).map InCond.render) ++ filter.page.String) ∧
    (filter.From = [] → filter.To = [] → filter.Tokens = [] →
      ∀ r : TransferRow, Matches filter r) ∧
    (∀ db : Database, (GetTokenTransfers ⟨db, []⟩ filter).1 =
      applyPagination filter.page.clause
        ((db.transfers.filter (fun r => decide (Matches filter r))).map
          TransferRow.toTransfer)) := by
  refine ⟨whereAttr_holds_iff filter, whereAttr_ne_nil_iff filter, ?_, ?_, ?_, ?_⟩
  · intro h
    simp [transfersQueryText, h]
  · intro h
    have hl : ((whereAttr filter).map InCond.render).length ≠ 0 := by
      rw [List.length_map]
      exact fun h0 => h (List.length_eq_zero.1 h0)
    simp only [transfersQueryText, hl, ne_eq, not_false_eq_true, if_true]
  · intro h1 h2 h3 r
    simp [Matches, h1, h2, h3]
  · exact GetTokenTransfers_eq_matches filter

/-- C7 on the example: with transfers (tokenA, X, Y) and (tokenB, Z, Y), the filter
`To: [Y]` returns both and `To: [Y], Tokens: [tokenA]` only the first. -/
theorem GetTokenTransfers_filter_semantics_witness :
    (GetTokenTransfers ⟨twoTransfers, []⟩ ⟨⟨0, 0⟩, [], ["Y"], []⟩).1 =
      .ok [⟨"tokenA", "X", "Y", "5"⟩, ⟨"tokenB", "Z", "Y", "7"⟩] ∧
    (GetTokenTransfers ⟨twoTransfers, []⟩ ⟨⟨0, 0⟩, [], ["Y"], ["tokenA"]⟩).1 =
      .ok [⟨"tokenA", "X", "Y", "5"⟩] :=
  ⟨((GetTokenTransfers_filter_semantics ⟨⟨0, 0⟩, [], ["Y"], []⟩).2.2.2.2.2
      twoTransfers).trans (by rfl),
   ((GetTokenTransfers_filter_semantics ⟨⟨0, 0⟩, [], ["Y"], ["tokenA"]⟩).2.2.2.2.2
      twoTransfers).trans (by rfl)⟩

/-! ## C8 and C9: pagination -/

/-- C8, as stated, fails: with `Limit = 0` and `Offset = 2` the pagination clause is
empty, `ListTokens` over five tokens returns all five rather than the last three, and
`GetTokenTransfers` with `Limit = 0` and `Offset = 1` over two transfers returns both. -/
theorem offset_ignored_without_limit :
    (QueryPagination.String ⟨0, 2⟩ = "") ∧
    (tokensQueryText ⟨0, 2⟩ = "SELECT id FROM tokens") ∧
    (ListTokens ⟨fiveTokens, []⟩ ⟨0, 2⟩).1 = .ok ["t1", "t2", "t3", "t4", "t5"] ∧
    (ListTokens ⟨fiveTokens, []⟩ ⟨0, 2⟩).1 ≠ .ok (fiveTokens.tokens.drop 2) ∧
    (GetTokenTransfers ⟨twoTransfers, []⟩ ⟨⟨0, 1⟩, [], [], []⟩).1 =
      .ok [⟨"tokenA", "X", "Y", "5"⟩, ⟨"tokenB", "Z", "Y", "7"⟩] := by
  refine ⟨by decide, by decide, by rfl, ?_, by rfl⟩
  intro h
  have h' : (Except.ok ["t1", "t2", "t3", "t4", "t5"] : Except String (List String)) =
      .ok (fiveTokens.tokens.drop 2) := h
  injection h' with h'
  exact absurd h' (by decide)

/-- C8, amended: with `Limit = 0` no pagination clause is produced, so the offset is not
applied: for every `QueryPagination` with `Limit = 0`, whatever its `Offset`,
`QueryPagination.String` is the empty string, `ListTokens` returns all token rows and
`GetTokenTransfers` returns all matching transfers. -/
theorem no_limit_means_no_pagination (p : QueryPagination) (hl : p.Limit = 0) :
    p.String = "" ∧ p.clause = none ∧
    (∀ db : Database, (ListTokens ⟨db, []⟩ p).1 = .ok db.tokens) ∧
    (∀ (db : Database) (filter : TransfersFilter), filter.page = p →
      (GetTokenTransfers ⟨db, []⟩ filter).1 =
        .ok ((db.transfers.filter (fun r => decide (Matches filter r))).map
          TransferRow.toTransfer)) := by
  have hc : p.clause = none := by simp [QueryPagination.clause, hl]
  refine ⟨by simp [QueryPagination.String, hl], hc, ?_, ?_⟩
  · intro db
    rw [ListTokens_nofault, hc]
    rfl
  · intro db filter hp
    rw [GetTokenTransfers_eq_matches filter db, hp, hc]
    rfl

/-- C8, amended, at `Limit = 0`, `Offset = 2` over five tokens. -/
theorem no_limit_means_no_pagination_witness :
    QueryPagination.String ⟨0, 2⟩ = "" ∧
    (ListTokens ⟨fiveTokens, []⟩ ⟨0, 2⟩).1 = .ok fiveTokens.tokens :=
  have h := no_limit_means_no_pagination ⟨0, 2⟩ rfl
  ⟨h.1, h.2.2.1 fiveTokens⟩

/-- C9: pagination bounds. For `Limit = l > 0` and `Offset = k ≥ 0`,
`QueryPagination.String` is ` LIMIT l OFFSET k` and `ListTokens` returns, of the `n`
stored tokens, exactly those that follow the first `k` in stored order, at most `l` of
them: `min l (n - k)` tokens (with truncated subtraction). With `Limit = 0` and
`Offset = 0` it returns all `n`. -/
theorem ListTokens_pagination_bounds (db : Database) (p : QueryPagination)
    (hl : 0 < p.Limit) (hk : 0 ≤ p.Offset) :
    p.String = " LIMIT " ++ toString p.Limit ++ " OFFSET " ++ toString p.Offset ∧
    tokensQueryText p =
      "SELECT id FROM tokens" ++
        (" LIMIT " ++ toString p.Limit ++ " OFFSET " ++ toString p.Offset) ∧
    (ListTokens ⟨db, []⟩ p).1 =
      .ok ((db.tokens.drop p.Offset.toNat).take p.Limit.toNat) ∧
    ((db.tokens.drop p.Offset.toNat).take p.Limit.toNat).length =
      min p.Limit.toNat (db.tokens.length - p.Offset.toNat) ∧
    (ListTokens ⟨db, []⟩ ⟨0, 0⟩).1 = .ok db.tokens := by
  have hne : p.Limit ≠ 0 := ne_of_gt hl
  have hs : p.String = " LIMIT " ++ toString p.Limit ++ " OFFSET " ++ toString p.Offset := by
    simp [QueryPagination.String, hne]
  refine ⟨hs, by rw [tokensQueryText, hs], ?_, ?_, ?_⟩
  · rw [ListTokens_nofault]
    simp [QueryPagination.clause, hne, applyPagination, not_lt.2 (le_of_lt hl), not_lt.2 hk]
  · simp [List.length_take, List.length_drop]
  · rw [ListTokens_nofault]
    rfl

/-- C9 on the example: five tokens, `limit=2, offset=3` gives the 4th and 5th, and
`limit=0` gives all five. -/
theorem ListTokens_pagination_bounds_witness :
    QueryPagination.String ⟨2, 3⟩ = " LIMIT 2 OFFSET 3" ∧
    (ListTokens ⟨fiveTokens, []⟩ ⟨2, 3⟩).1 = .ok ["t4", "t5"] ∧
    (ListTokens ⟨fiveTokens, []⟩ ⟨0, 0⟩).1 = .ok ["t1", "t2", "t3", "t4", "t5"] :=
  have h := ListTokens_pagination_bounds fiveTokens ⟨2, 3⟩ (by decide) (by decide)
  ⟨h.1.trans (by decide), h.2.2.1.trans (by rfl), h.2.2.2.2.trans (by rfl)⟩

/-! ## C10: rollback before replay -/

theorem removeLoop_calls :
    ∀ (rs : List Log) (s : Store) (calls : List StoreCall),
      ∃ n, n ≤ rs.length ∧
        (removeLoop s calls rs).2.2 =
          calls ++ (rs.take n).map (fun r => StoreCall.RemoveReceipts r.BlockHash) ∧
        ((removeLoop s calls rs).1 = none → n = rs.length) := by
  intro rs
  induction rs with
  | nil => intro s calls; exact ⟨0, le_refl _, by simp [removeLoop], fun _ => rfl⟩
  | cons r rs ih =>
    intro s calls
    unfold removeLoop
    rcases hr : RemoveReceipts s r.BlockHash with ⟨e, s1⟩
    cases e with
    | some e =>
      refine ⟨1, by simp, by simp, ?_⟩
      intro h
      simp at h
    | none =>
      obtain ⟨n, hn, hc, hfull⟩ :=
        ih s1 (calls ++ [StoreCall.RemoveReceipts r.BlockHash])
      refine ⟨n + 1, by simpa using hn, ?_, ?_⟩
      · simp only [hc, List.take_succ_cons, List.map_cons, List.append_assoc,
          List.singleton_append]
      · intro h
        simp only [List.length_cons, add_left_inj]
        exact hfull h

theorem removeLoop_db :
    ∀ (rs : List Log) (s : Store) (calls : List StoreCall),
      (removeLoop s calls rs).1 = none →
        (removeLoop s calls rs).2.1.db.tokens = s.db.tokens ∧
        (removeLoop s calls rs).2.1.db.transfers =
          s.db.transfers.filter (fun t => rs.all (fun r => decide (t.block_hash ≠ r.BlockHash))) := by
  intro rs
  induction rs with
  | nil => intro s calls _; simp [removeLoop]
  | cons r rs ih =>
    intro s calls h
    unfold removeLoop at h ⊢
    rcases hr : RemoveReceipts s r.BlockHash with ⟨e, s1⟩
    cases e with
    | some e => simp [hr] at h
    | none =>
      simp only [hr] at h ⊢
      have hk : (RemoveReceipts s r.BlockHash).1 = none := by rw [hr]
      obtain ⟨ht, htr⟩ := RemoveReceipts_ok hk
      rw [hr] at ht htr
      obtain ⟨iht, ihtr⟩ := ih s1 _ h
      refine ⟨iht.trans ht, ?_⟩
      rw [ihtr, htr, List.filter_filter]
      apply List.filter_congr
      intro t _
      simp [Bool.and_comm]

theorem removeLoop_unfaulted :
    ∀ (rs : List Log) (s : Store) (calls : List StoreCall), s.faults = [] →
      (removeLoop s calls rs).1 = none ∧ (removeLoop s calls rs).2.1.faults = [] := by
  intro rs
  induction rs with
  | nil => intro s calls hf; simp [removeLoop, hf]
  | cons r rs ih =>
    intro s calls hf
    unfold removeLoop
    obtain ⟨h1, h2⟩ := RemoveReceipts_nofault s r.BlockHash hf
    rcases hr : RemoveReceipts s r.BlockHash with ⟨e, s1⟩
    rw [hr] at h1 h2
    simp only at h1 h2
    subst h1
    exact ih s1 _ h2

theorem handleEvent_calls (parseLog : LogDecoder) (s : Store) (evnt : Event) :
    (handleEvent parseLog s evnt).2.2 = eventPlan evnt ∨
    ((handleEvent parseLog s evnt).1 ≠ none ∧
      ∃ n, (handleEvent parseLog s evnt).2.2 =
        (evnt.RemovedLogs.take n).map (fun r => StoreCall.RemoveReceipts r.BlockHash)) := by
  obtain ⟨n, _, hc, hfull⟩ := removeLoop_calls evnt.RemovedLogs s []
  unfold handleEvent eventPlan
  rcases hrl : removeLoop s [] evnt.RemovedLogs with ⟨e, s1, calls⟩
  rw [hrl] at hc hfull
  simp only [List.nil_append] at hc
  cases e with
  | some e =>
    right
    exact ⟨by simp, n, hc⟩
  | none =>
    left
    have hn : n = evnt.RemovedLogs.length := hfull rfl
    subst hn
    rw [List.take_length] at hc
    dsimp only
    by_cases ha : evnt.AddedLogs.length ≠ 0
    · rw [if_pos ha, if_pos ha]
      rcases WriteReceipt parseLog s1 evnt.AddedLogs with ⟨e2, s2⟩
      cases e2 <;> simp [hc]
    · rw [if_neg ha, if_neg ha, List.append_nil]
      exact hc

theorem handleEvent_ok_db (parseLog : LogDecoder) (s : Store) (evnt : Event)
    (h : (handleEvent parseLog s evnt).1 = none) :
    (handleEvent parseLog s evnt).2.1.db.transfers =
      s.db.transfers.filter
          (fun t => evnt.RemovedLogs.all (fun r => decide (t.block_hash ≠ r.BlockHash))) ++
        batchRows parseLog evnt.AddedLogs ∧
    ∀ l ∈ evnt.AddedLogs, l.Topics.length = 3 → (rowOf parseLog l).isSome = true := by
  have hdb := removeLoop_db evnt.RemovedLogs s []
  unfold handleEvent at h ⊢
  rcases hrl : removeLoop s [] evnt.RemovedLogs with ⟨e, s1, calls⟩
  rw [hrl] at hdb
  cases e with
  | some e => simp [hrl] at h
  | none =>
    simp only [hrl] at h ⊢
    have htr := (hdb rfl).2
    simp only at htr
    by_cases ha : evnt.AddedLogs.length ≠ 0
    · rw [if_pos ha] at h ⊢
      rcases hw : WriteReceipt parseLog s1 evnt.AddedLogs with ⟨e2, s2⟩
      cases e2 with
      | some e2 => simp [hw] at h
      | none =>
        have hk : (WriteReceipt parseLog s1 evnt.AddedLogs).1 = none := by rw [hw]
        obtain ⟨_, hr, hq⟩ := WriteReceipt_ok hk
        rw [hw] at hr
        simp only at hr ⊢
        exact ⟨by rw [hr, htr], hq⟩
    · have hnil : evnt.AddedLogs = [] := List.length_eq_zero.1 (not_not.1 ha)
      rw [if_neg ha]
      rw [hnil]
      exact ⟨by simp [batchRows, htr], by simp⟩

theorem handleEvent_unfaulted (parseLog : LogDecoder) (s : Store) (evnt : Event)
    (hf : s.faults = [])
    (hq : ∀ l ∈ evnt.AddedLogs, l.Topics.length = 3 → (rowOf parseLog l).isSome = true) :
    (handleEvent parseLog s evnt).1 = none := by
  obtain ⟨h1, h2⟩ := removeLoop_unfaulted evnt.RemovedLogs s [] hf
  unfold handleEvent
  rcases hrl : removeLoop s [] evnt.RemovedLogs with ⟨e, s1, calls⟩
  rw [hrl] at h1 h2
  simp only at h1 h2
  subst h1
  simp only
  by_cases ha : evnt.AddedLogs.length ≠ 0
  · rw [if_pos ha]
    have hw := (WriteReceipt_nofault parseLog s1 evnt.AddedLogs h2 hq).1
    rcases hw2 : WriteReceipt parseLog s1 evnt.AddedLogs with ⟨e2, s2⟩
    rw [hw2] at hw
    simp only at hw
    subst hw
    rfl
  · rw [if_neg ha]

/-- C10: rollback before replay. The store calls of the per-event step are a prefix of
the plan "one `RemoveReceipts` per removed log, in order, then `WriteReceipt` of the added
logs if there are any", and the whole plan when no call fails; so `WriteReceipt` is
called only on non-empty added logs and only after `RemoveReceipts` was called for the
block hash of every removed log. The step succeeds when the driver does not fail and the
added three-topic logs decode. Hence, for an event whose (non-empty) removed logs are
under `B1` and whose added logs are under another hash `B2`, a successful step leaves no
transfer under `B1` and leaves the row of every added three-topic log, under `B2`. -/
theorem handleEvent_rollback_before_replay (parseLog : LogDecoder) (s : Store)
    (evnt : Event) :
    ((handleEvent parseLog s evnt).2.2 <+: eventPlan evnt) ∧
    ((handleEvent parseLog s evnt).1 = none →
      (handleEvent parseLog s evnt).2.2 = eventPlan evnt) ∧
    (∀ logs, StoreCall.WriteReceipt logs ∈ (handleEvent parseLog s evnt).2.2 →
      logs = evnt.AddedLogs ∧ evnt.AddedLogs ≠ [] ∧
      (handleEvent parseLog s evnt).2.2 =
        evnt.RemovedLogs.map (fun r => StoreCall.RemoveReceipts r.BlockHash) ++
          [StoreCall.WriteReceipt evnt.AddedLogs]) ∧
    (s.faults = [] →
      (∀ l ∈ evnt.AddedLogs, l.Topics.length = 3 → (rowOf parseLog l).isSome = true) →
      (handleEvent parseLog s evnt).1 = none) ∧
    (∀ B1 B2 : Web3Hash, B1 ≠ B2 → evnt.RemovedLogs ≠ [] →
      (∀ r ∈ evnt.RemovedLogs, r.BlockHash = B1) →
      (∀ l ∈ evnt.AddedLogs, l.BlockHash = B2) →
      (handleEvent parseLog s evnt).1 = none →
      (handleEvent parseLog s evnt).2.1.db.transfers =
        s.db.transfers.filter (fun t => t.block_hash ≠ B1) ++
          batchRows parseLog evnt.AddedLogs ∧
      (∀ t ∈ (handleEvent parseLog s evnt).2.1.db.transfers, t.block_hash ≠ B1) ∧
      (∀ l ∈ evnt.AddedLogs, l.Topics.length = 3 →
        ∃ row, rowOf parseLog l = some row ∧ row.block_hash = B2 ∧
          row ∈ (handleEvent parseLog s evnt).2.1.db.transfers)) := by
  have hcalls := handleEvent_calls parseLog s evnt
  refine ⟨?_, ?_, ?_, handleEvent_unfaulted parseLog s evnt, ?_⟩
  · rcases hcalls with h | ⟨_, n, h⟩
    · rw [h]
    · rw [h]
      exact ((List.take_prefix n evnt.RemovedLogs).map _).trans (List.prefix_append _ _)
  · intro hnone
    rcases hcalls with h | ⟨herr, _⟩
    · exact h
    · exact absurd hnone herr
  · intro logs hmem
    rcases hcalls with h | ⟨_, n, h⟩
    · rw [h] at hmem ⊢
      unfold eventPlan at hmem ⊢
      by_cases ha : evnt.AddedLogs.length ≠ 0
      · rw [if_pos ha] at hmem ⊢
        simp only [List.mem_append, List.mem_map, List.mem_singleton,
          StoreCall.WriteReceipt.injEq] at hmem
        rcases hmem with ⟨r, _, hr⟩ | hmem
        · exact StoreCall.noConfusion hr
        · exact ⟨hmem, fun h0 => ha (by rw [h0]; rfl), rfl⟩
      · rw [if_neg ha] at hmem
        simp at hmem
    · rw [h, List.mem_map] at hmem
      obtain ⟨r, _, hr⟩ := hmem
      exact StoreCall.noConfusion hr
  · intro B1 B2 hne hrem hB1 hB2 hnone
    obtain ⟨htr, hq⟩ := handleEvent_ok_db parseLog s evnt hnone
    have hfilter : s.db.transfers.filter
          (fun t => evnt.RemovedLogs.all (fun r => decide (t.block_hash ≠ r.BlockHash))) =
        s.db.transfers.filter (fun t => t.block_hash ≠ B1) := by
      apply List.filter_congr
      intro t _
      rw [Bool.eq_iff_iff]
      simp only [List.all_eq_true, decide_eq_true_eq]
      constructor
      · intro hall
        obtain ⟨r, hr⟩ := List.exists_mem_of_ne_nil _ hrem
        have := hall r hr
        rwa [hB1 r hr] at this
      · intro hb r hr
        rw [hB1 r hr]
        exact hb
    rw [hfilter] at htr
    refine ⟨htr, ?_, ?_⟩
    · intro t ht
      rw [htr, List.mem_append] at ht
      rcases ht with ht | ht
      · rw [List.mem_filter] at ht
        simpa using ht.2
      · obtain ⟨l, hl, _, hrow⟩ := batchRows_origin ht
        rw [(rowOf_fields hrow).2.1, hB2 l hl]
        exact fun h0 => hne h0.symm
    · intro l hl h3
      obtain ⟨row, hrow⟩ := Option.isSome_iff_exists.1 (hq l hl h3)
      refine ⟨row, hrow, ?_, ?_⟩
      · rw [(rowOf_fields hrow).2.1, hB2 l hl]
      · rw [htr]
        exact List.mem_append_right _ (mem_batchRows hl h3 hrow)

/-- C10 on a reorg: the store holds the two transfers of block `hash1`; the event removes
`hash1` and adds the transfers again under `hash9`. The removals are issued first, and
the store ends with the two transfers under `hash9` only. -/
theorem handleEvent_rollback_before_replay_witness :
    (handleEvent sampleParseLog
      (WriteReceipt sampleParseLog ⟨emptyDB, []⟩ [logA, logB]).2 reorgEvent).1 = none ∧
    (handleEvent sampleParseLog
      (WriteReceipt sampleParseLog ⟨emptyDB, []⟩ [logA, logB]).2 reorgEvent).2.2 =
      [StoreCall.RemoveReceipts "hash1", StoreCall.RemoveReceipts "hash1",
       StoreCall.WriteReceipt reorgEvent.AddedLogs] ∧
    (handleEvent sampleParseLog
      (WriteReceipt sampleParseLog ⟨emptyDB, []⟩ [logA, logB]).2 reorgEvent).2.1.db.transfers =
      [⟨"addr3", "hash9", "hash2", "addr1", "addr2", "1000"⟩,
       ⟨"addr4", "hash9", "hash2", "addr2", "addr1", "100"⟩] :=
  have h := handleEvent_rollback_before_replay sampleParseLog
    (WriteReceipt sampleParseLog ⟨emptyDB, []⟩ [logA, logB]).2 reorgEvent
  ⟨by decide, (h.2.1 (by decide)).trans (by decide),
   (h.2.2.2.2 "hash1" "hash9" (by decide) (by decide) (by decide) (by decide)
     (by decide)).1.trans (by decide)⟩

/-! ## C11: a store error aborts consumption -/

theorem applyCalls_cons (parseLog : LogDecoder) (s : Store) (c : StoreCall)
    (cs : List StoreCall) :
    applyCalls parseLog s (c :: cs) =
      match applyCall parseLog s c with
      | (some _, _) => none
      | (none, s) => applyCalls parseLog s cs := rfl

theorem applyCalls_append (parseLog : LogDecoder) :
    ∀ (xs ys : List StoreCall) (s s1 : Store), applyCalls parseLog s xs = some s1 →
      applyCalls parseLog s (xs ++ ys) = applyCalls parseLog s1 ys := by
  intro xs
  induction xs with
  | nil =>
    intro ys s s1 h
    simp only [applyCalls, Option.some.injEq] at h
    subst h
    rfl
  | cons x xs ih =>
    intro ys s s1 h
    simp only [List.cons_append, applyCalls_cons] at h ⊢
    rcases hx : applyCall parseLog s x with ⟨e, s2⟩
    rw [hx] at h
    cases e with
    | some e => simp at h
    | none => exact ih ys s2 s1 h

theorem removeLoop_trace (parseLog : LogDecoder) :
    ∀ (rs : List Log) (s : Store) (calls : List StoreCall),
      (∀ s', (removeLoop s calls rs).1 = none → (removeLoop s calls rs).2.1 = s' →
        (removeLoop s calls rs).2.2 =
          calls ++ rs.map (fun r => StoreCall.RemoveReceipts r.BlockHash) ∧
        applyCalls parseLog s (rs.map (fun r => StoreCall.RemoveReceipts r.BlockHash))
          = some s') ∧
      (∀ err, (removeLoop s calls rs).1 = some err →
        ∃ init c s1, (removeLoop s calls rs).2.2 = calls ++ (init ++ [c]) ∧
          applyCalls parseLog s init = some s1 ∧
          applyCall parseLog s1 c = (some err, (removeLoop s calls rs).2.1)) := by
  intro rs
  induction rs with
  | nil =>
    intro s calls
    refine ⟨?_, ?_⟩
    · intro s' _ hs
      simp only [removeLoop] at hs
      subst hs
      simp [removeLoop, applyCalls]
    · intro err h
      simp [removeLoop] at h
  | cons r rs ih =>
    intro s calls
    unfold removeLoop
    rcases hr : RemoveReceipts s r.BlockHash with ⟨e, s1⟩
    cases e with
    | some e =>
      refine ⟨?_, ?_⟩
      · intro s' h
        simp at h
      · intro err h
        simp only [Option.some.injEq] at h
        subst h
        exact ⟨[], StoreCall.RemoveReceipts r.BlockHash, s, by simp, rfl,
          by simp [applyCall, hr]⟩
    | none =>
      obtain ⟨ihok, iherr⟩ := ih s1 (calls ++ [StoreCall.RemoveReceipts r.BlockHash])
      refine ⟨?_, ?_⟩
      · intro s' h hs
        obtain ⟨h1, h2⟩ := ihok s' h hs
        refine ⟨by simp [h1], ?_⟩
        simp only [List.map_cons, applyCalls_cons, applyCall, hr]
        exact h2
      · intro err h
        obtain ⟨init, c, s2, h1, h2, h3⟩ := iherr err h
        refine ⟨StoreCall.RemoveReceipts r.BlockHash :: init, c, s2, by simp [h1], ?_, h3⟩
        simp only [applyCalls_cons, applyCall, hr]
        exact h2

theorem handleEvent_error_trace (parseLog : LogDecoder) (s : Store) (evnt : Event)
    (err : String) (h : (handleEvent parseLog s evnt).1 = some err) :
    ∃ init c s1, (handleEvent parseLog s evnt).2.2 = init ++ [c] ∧
      applyCalls parseLog s init = some s1 ∧
      applyCall parseLog s1 c = (some err, (handleEvent parseLog s evnt).2.1) := by
  obtain ⟨hok, herr⟩ := removeLoop_trace parseLog evnt.RemovedLogs s []
  unfold handleEvent at h ⊢
  rcases hrl : removeLoop s [] evnt.RemovedLogs with ⟨e, s1, calls⟩
  rw [hrl] at hok herr h
  cases e with
  | some e =>
    simp only [Option.some.injEq] at h
    subst h
    obtain ⟨init, c, s2, h1, h2, h3⟩ := herr e rfl
    exact ⟨init, c, s2, by simpa using h1, h2, h3⟩
  | none =>
    obtain ⟨h1, h2⟩ := hok s1 rfl rfl
    simp only [List.nil_append] at h1
    dsimp only at h ⊢
    by_cases ha : evnt.AddedLogs.length ≠ 0
    · rw [if_pos ha] at h ⊢
      rcases hw : WriteReceipt parseLog s1 evnt.AddedLogs with ⟨e2, s2⟩
      rw [hw] at h
      cases e2 with
      | none => simp at h
      | some e2 =>
        simp only [Option.some.injEq] at h
        subst h
        exact ⟨_, StoreCall.WriteReceipt evnt.AddedLogs, s1, rfl, by rw [h1]; exact h2,
          by simp [applyCall, hw]⟩
    · rw [if_neg ha] at h
      simp at h

theorem consumerLoop_append (parseLog : LogDecoder) (rest : List Selected) :
    ∀ (pre : List Event) (c : Consumer),
      (consumerLoop parseLog c (pre.map Selected.evnt)).returned = false →
      consumerLoop parseLog c (pre.map Selected.evnt ++ rest) =
        consumerLoop parseLog (consumerLoop parseLog c (pre.map Selected.evnt)) rest := by
  intro pre
  induction pre with
  | nil => intro c _; rfl
  | cons e pre ih =>
    intro c h
    simp only [List.map_cons, List.cons_append, consumerLoop] at h ⊢
    rcases hh : handleEvent parseLog c.store e with ⟨r, s1, calls⟩
    rw [hh] at h
    cases r with
    | some err => simp [handleErr] at h
    | none => exact ih _ h

/-- C11: a store error aborts consumption. Let the consumer have handled the events
`pre` without returning, and let a `RemoveReceipts` or `WriteReceipt` call fail with
`err` while the next event is processed. Then, whatever the consumer would select next
(further events or `ctx.Done()`), it has returned, has called `cancel()`, and holds
`err` in `syncErr`; the store calls it issued for that event are some successful
calls followed by the failing call, once, and they are a prefix of the event's plan, so
neither the remaining removals nor the write are issued and the failed call is not
retried; and nothing is issued for any later event. -/
theorem store_error_aborts_consumption (parseLog : LogDecoder) (c : Consumer)
    (pre : List Event) (ek : Event) (rest : List Selected) (err : String)
    (hpre : (consumerLoop parseLog c (pre.map Selected.evnt)).returned = false)
    (hfail : (handleEvent parseLog
      (consumerLoop parseLog c (pre.map Selected.evnt)).store ek).1 = some err) :
    (consumerLoop parseLog c (pre.map Selected.evnt ++ Selected.evnt ek :: rest)).returned
      = true ∧
    (consumerLoop parseLog c (pre.map Selected.evnt ++ Selected.evnt ek :: rest)).cancelled
      = true ∧
    (consumerLoop parseLog c (pre.map Selected.evnt ++ Selected.evnt ek :: rest)).syncErr
      = some err ∧
    consumerLoop parseLog c (pre.map Selected.evnt ++ Selected.evnt ek :: rest) =
      consumerLoop parseLog c (pre.map Selected.evnt ++ [Selected.evnt ek]) ∧
    ∃ init call s1,
      (consumerLoop parseLog c (pre.map Selected.evnt ++ Selected.evnt ek :: rest)).calls =
        (consumerLoop parseLog c (pre.map Selected.evnt)).calls ++ (init ++ [call]) ∧
      (init ++ [call]) <+: eventPlan ek ∧
      applyCalls parseLog (consumerLoop parseLog c (pre.map Selected.evnt)).store init
        = some s1 ∧
      applyCall parseLog s1 call =
        (some err,
          (consumerLoop parseLog c
            (pre.map Selected.evnt ++ Selected.evnt ek :: rest)).store) := by
  have hstep : ∀ rest' : List Selected,
      consumerLoop parseLog c (pre.map Selected.evnt ++ Selected.evnt ek :: rest') =
        { store := (handleEvent parseLog
            (consumerLoop parseLog c (pre.map Selected.evnt)).store ek).2.1,
          cancelled := true, syncErr := some err,
          calls := (consumerLoop parseLog c (pre.map Selected.evnt)).calls ++
            (handleEvent parseLog
              (consumerLoop parseLog c (pre.map Selected.evnt)).store ek).2.2,
          returned := true } := by
    intro rest'
    rw [consumerLoop_append parseLog _ pre c hpre]
    simp only [consumerLoop]
    rcases hh : handleEvent parseLog
      (consumerLoop parseLog c (pre.map Selected.evnt)).store ek with ⟨r, s1, calls⟩
    rw [hh] at hfail
    simp only at hfail
    subst hfail
    simp [handleErr]
  obtain ⟨init, call, s1, h1, h2, h3⟩ := handleEvent_error_trace parseLog _ ek err hfail
  have hpref := (handleEvent_calls parseLog
    (consumerLoop parseLog c (pre.map Selected.evnt)).store ek)
  refine ⟨by rw [hstep], by rw [hstep], by rw [hstep], by rw [hstep, hstep],
    init, call, s1, by rw [hstep, h1], ?_, h2, by rw [hstep]; exact h3⟩
  rw [← h1]
  rcases hpref with h | ⟨_, n, h⟩
  · rw [h]
  · rw [h]
    exact ((List.take_prefix n ek.RemovedLogs).map _).trans (List.prefix_append _ _)

/-- C11 on a run of three events where the driver fails at the second removal of the
second event: the consumer stops there with the error recorded, and neither the write of
that event nor anything for the third event is issued. -/
theorem store_error_aborts_consumption_witness :
    (consumerLoop sampleParseLog (startConsumer ⟨emptyDB, faultAtTwelfth⟩)
      [Selected.evnt addEvent, Selected.evnt reorgEvent, Selected.evnt lateEvent]).syncErr
      = some driverError ∧
    (consumerLoop sampleParseLog (startConsumer ⟨emptyDB, faultAtTwelfth⟩)
      [Selected.evnt addEvent, Selected.evnt reorgEvent, Selected.evnt lateEvent]).calls
      = [StoreCall.WriteReceipt [logA, logB], StoreCall.RemoveReceipts "hash1",
         StoreCall.RemoveReceipts "hash1"] :=
  have h := store_error_aborts_consumption sampleParseLog
    (startConsumer ⟨emptyDB, faultAtTwelfth⟩) [addEvent] reorgEvent
    [Selected.evnt lateEvent] driverError (by decide) (by decide)
  ⟨h.2.2.1, by decide⟩

/-! ## C12: error reporting of `wrap` -/

theorem fresh_write (code : Nat) (b : String) :
    (freshWriter.WriteHeader code).Write b = ⟨some code, b⟩ := by
  simp [freshWriter, ResponseWriter.WriteHeader, ResponseWriter.Write]

/-- C12, as stated, fails: `listTokens` on a store whose query fails returns an error,
and the wrapped handler answers with status 200 and the envelope with `Status` `ERROR`,
not with status 500 and the error's message. -/
theorem handler_error_answers_status_ok :
    (listTokens sampleAtoi ⟨fiveTokens, [true]⟩ ⟨[]⟩).1 = (none, some driverError) ∧
    wrap sampleMarshal (fun r => (listTokens sampleAtoi ⟨fiveTokens, [true]⟩ r).1)
      freshWriter ⟨[]⟩ =
      ⟨some 200, "\x7b\"Status\":\"ERROR\",\"Result\":null\x7d"⟩ ∧
    (wrap sampleMarshal (fun r => (listTokens sampleAtoi ⟨fiveTokens, [true]⟩ r).1)
      freshWriter ⟨[]⟩).statusCode ≠ some StatusInternalServerError ∧
    (wrap sampleMarshal (fun r => (listTokens sampleAtoi ⟨fiveTokens, [true]⟩ r).1)
      freshWriter ⟨[]⟩).body ≠ driverError := by
  refine ⟨by decide, by decide, by decide, by decide⟩

/-- C12, amended: for every handler wrapped by `wrap` and every request, when the handler
returns an error the response has status 200 and its body is the marshalled envelope
with `Status` `ERROR` and the handler's result; when the handler succeeds the response
has status 200 and the envelope with `Status` `SUCCESS`; status 500 with a message body
is produced exactly when marshalling the envelope fails, the body being the marshalling
error's message. -/
theorem wrap_reports_in_envelope {ρ : Type} (marshal : apiResult ρ → Except String String)
    (handler : endpoint ρ) (r : Request) :
    (∀ err json, (handler r).2 = some err →
      marshal { Status := "ERROR", Result := (handler r).1 } = .ok json →
      wrap marshal handler freshWriter r = ⟨some StatusOK, json⟩) ∧
    (∀ json, (handler r).2 = none →
      marshal { Status := "SUCCESS", Result := (handler r).1 } = .ok json →
      wrap marshal handler freshWriter r = ⟨some StatusOK, json⟩) ∧
    (∀ msg,
      marshal { Status := if (handler r).2 ≠ none then "ERROR" else "SUCCESS",
                Result := (handler r).1 } = .error msg →
      wrap marshal handler freshWriter r = ⟨some StatusInternalServerError, msg⟩) ∧
    ((wrap marshal handler freshWriter r).statusCode = some StatusInternalServerError →
      ∃ msg,
        marshal { Status := if (handler r).2 ≠ none then "ERROR" else "SUCCESS",
                  Result := (handler r).1 } = .error msg) := by
  rcases hh : handler r with ⟨resp, e⟩
  refine ⟨?_, ?_, ?_, ?_⟩
  · intro err json he hm
    simp only at he hm
    subst he
    simp [wrap, hh, hm, fresh_write]
  · intro json he hm
    simp only at he hm
    subst he
    simp [wrap, hh, hm, fresh_write]
  · intro msg hm
    simp only at hm
    simp only [wrap, hh, hm, fresh_write]
  · intro hs
    simp only [wrap, hh] at hs
    cases hm : marshal { Status := if e ≠ none then "ERROR" else "SUCCESS", Result := resp } with
    | error msg => exact ⟨msg, rfl⟩
    | ok json =>
      rw [hm] at hs
      simp [fresh_write, StatusOK, StatusInternalServerError] at hs

/-- C12, amended, on `listTokens`: a failing store query gives status 200 with the
`ERROR` envelope, a working one status 200 with the `SUCCESS` envelope. -/
theorem wrap_reports_in_envelope_witness :
    wrap sampleMarshal (fun r => (listTokens sampleAtoi ⟨fiveTokens, [true]⟩ r).1)
      freshWriter ⟨[]⟩ =
      ⟨some StatusOK, "\x7b\"Status\":\"ERROR\",\"Result\":null\x7d"⟩ ∧
    wrap sampleMarshal (fun r => (listTokens sampleAtoi ⟨fiveTokens, []⟩ r).1)
      freshWriter ⟨[]⟩ =
      ⟨some StatusOK,
        "\x7b\"Status\":\"SUCCESS\",\"Result\":[\"t1\",\"t2\",\"t3\",\"t4\",\"t5\"]\x7d"⟩ :=
  ⟨(wrap_reports_in_envelope sampleMarshal
      (fun r => (listTokens sampleAtoi ⟨fiveTokens, [true]⟩ r).1) ⟨[]⟩).1
      driverError _ (by decide) (by rfl),
   (wrap_reports_in_envelope sampleMarshal
      (fun r => (listTokens sampleAtoi ⟨fiveTokens, []⟩ r).1) ⟨[]⟩).2.1
      _ (by decide) (by rfl)⟩

/-! ## C13: malformed pagination -/

theorem parseSingleInt_malformed {atoi : String → Option Int} {r : Request} {name : String}
    (h : Malformed atoi r name) : parseSingleInt atoi r name = (0, false) := by
  obtain ⟨raw, hraw, hbad⟩ := h
  unfold parseSingleInt
  simp only [hraw]
  by_cases hl : raw.length ≠ 1
  · rw [if_pos hl]
  · rw [if_neg hl]
    rcases hbad with hbad | hbad
    · exact absurd hbad hl
    · rw [hbad]

theorem listTokens_error (atoi : String → Option Int) (s : Store) (r : Request) :
    (listTokens atoi s r).1.2 =
      match (ListTokens s (parsePagination atoi r [100])).1 with
      | .error err => some err
      | .ok _ => none := by
  unfold listTokens
  rcases hq : ListTokens s (parsePagination atoi r [100]) with ⟨res, s1⟩
  cases res with
  | error err => simp only [hq]
  | ok tokens =>
    simp only [hq]
    by_cases h0 : tokens.length = 0
    · rw [if_pos h0]
    · rw [if_neg h0]

/-- C13, as stated, fails: on the request `limit=abc&offset=x` both parameters are
present and unparsable, yet `parsePagination` yields limit 100 and offset 0,
`listTokens` runs the store query with them and returns the tokens without an error,
and the wrapped handler answers with status 200 and the `SUCCESS` envelope. -/
theorem malformed_pagination_is_swallowed :
    Malformed sampleAtoi badPageRequest "limit" ∧
    Malformed sampleAtoi badPageRequest "offset" ∧
    parsePagination sampleAtoi badPageRequest [100] = ⟨100, 0⟩ ∧
    (listTokens sampleAtoi ⟨fiveTokens, []⟩ badPageRequest).1 =
      (some ["t1", "t2", "t3", "t4", "t5"], none) ∧
    wrap sampleMarshal (fun r => (listTokens sampleAtoi ⟨fiveTokens, []⟩ r).1)
      freshWriter badPageRequest =
      ⟨some 200,
        "\x7b\"Status\":\"SUCCESS\",\"Result\":[\"t1\",\"t2\",\"t3\",\"t4\",\"t5\"]\x7d"⟩ := by
  refine ⟨⟨["abc"], by decide, Or.inr (by decide)⟩, ⟨["x"], by decide, Or.inr (by decide)⟩,
    by decide, by decide, by decide⟩

/-- C13, amended: malformed pagination is replaced by defaults, not reported. For every
request whose `limit` parameter is present but is not a single parseable integer,
`parsePagination` yields the default limit when one is given (100 in `listTokens`) and
0 otherwise; for such an `offset` it yields offset 0. `listTokens` runs the store query
with the values so obtained and returns an error exactly when the store query fails;
with both parameters malformed and a working store it returns the first 100 tokens. -/
theorem malformed_pagination_is_defaulted (atoi : String → Option Int) (r : Request) :
    (Malformed atoi r "limit" →
      (∀ d : Int, (parsePagination atoi r [d]).Limit = d) ∧
      (parsePagination atoi r []).Limit = 0) ∧
    (Malformed atoi r "offset" →
      ∀ defaultLimit : List Int, (parsePagination atoi r defaultLimit).Offset = 0) ∧
    (∀ s : Store, (listTokens atoi s r).1.2 =
      match (ListTokens s (parsePagination atoi r [100])).1 with
      | .error err => some err
      | .ok _ => none) ∧
    (Malformed atoi r "limit" → Malformed atoi r "offset" →
      ∀ db : Database,
        (listTokens atoi ⟨db, []⟩ r).1 = (some (db.tokens.take 100), none)) := by
  have hlim : Malformed atoi r "limit" → ∀ dl : List Int,
      (parsePagination atoi r dl).Limit = if dl.length = 1 then dl.headD 0 else 0 := by
    intro h dl
    unfold parsePagination
    rw [parseSingleInt_malformed h]
    by_cases h1 : dl.length = 1 <;> simp [h1]
  have hoff : Malformed atoi r "offset" → ∀ dl : List Int,
      (parsePagination atoi r dl).Offset = 0 := by
    intro h dl
    unfold parsePagination
    rw [parseSingleInt_malformed h]
  refine ⟨?_, hoff, fun s => listTokens_error atoi s r, ?_⟩
  · intro h
    exact ⟨fun d => by simpa using hlim h [d], by simpa using hlim h []⟩
  · intro h1 h2 db
    have hp : parsePagination atoi r [100] = ⟨100, 0⟩ := by
      have a := hlim h1 [100]
      have b := hoff h2 [100]
      rcases hq : parsePagination atoi r [100] with ⟨l, k⟩
      rw [hq] at a b
      simp only [List.length_singleton, if_true, List.headD_cons] at a
      simp only at b
      rw [a, b]
    have hl : (ListTokens ⟨db, []⟩ ⟨100, 0⟩) = (.ok (db.tokens.take 100), ⟨db, []⟩) := by
      simp [ListTokens, dbSelectTokens, popFault, QueryPagination.clause, applyPagination]
    unfold listTokens
    simp only [hp, hl]
    by_cases h0 : (db.tokens.take 100).length = 0
    · rw [if_pos h0, List.length_eq_zero.1 h0]
    · rw [if_neg h0]

/-- C13, amended, on the request `limit=abc&offset=x` over five tokens. -/
theorem malformed_pagination_is_defaulted_witness :
    (parsePagination sampleAtoi badPageRequest [100]).Limit = 100 ∧
    (parsePagination sampleAtoi badPageRequest [100]).Offset = 0 ∧
    (listTokens sampleAtoi ⟨fiveTokens, []⟩ badPageRequest).1 =
      (some ["t1", "t2", "t3", "t4", "t5"], none) :=
  have h := malformed_pagination_is_defaulted sampleAtoi badPageRequest
  have hl : Malformed sampleAtoi badPageRequest "limit" :=
    ⟨["abc"], by decide, Or.inr (by decide)⟩
  have ho : Malformed sampleAtoi badPageRequest "offset" :=
    ⟨["x"], by decide, Or.inr (by decide)⟩
  ⟨(h.1 hl).1 100, h.2.1 ho [100], (h.2.2.2 hl ho fiveTokens).trans (by decide)⟩

end TokenTracker
